import Mathlib

/-!
# Node lifecycle manager (`pkg/node/ignite.go`)

A shallow embedding of `IgniteNodeManager` and the properties of its four
operations.  Go strings are lists of characters, Go `int` values are integers,
and every external process is answered by an environment that may depend on
the whole history of earlier events.
-/

namespace Kubefire

/-- Go strings, as lists of characters. -/
abbrev Str := List Char

/-! ## Library functions used by the source -/

/-- Decimal digits of a natural number, most significant first, collected by
repeated division by ten (`strconv.formatBits`); `fuel` bounds the number of
digits. -/
def digitsAux : Nat → Nat → Str → Str
  | 0, _, acc => acc
  | fuel + 1, n, acc =>
    let acc1 := Char.ofNat (48 + n % 10) :: acc
    if n / 10 = 0 then acc1 else digitsAux fuel (n / 10) acc1

/-- Decimal text of a natural number. -/
def natToDecimal (n : Nat) : Str := digitsAux (n + 1) n []

/-- Model of `strconv.Itoa`: decimal text with a leading minus sign for negative values. -/
def itoa : Int → Str
  | Int.ofNat n => natToDecimal n
  | Int.negSucc n => '-' :: natToDecimal (n + 1)

/-- Model of `strings.Split(s, sep)` for a one-character separator: the pieces between
occurrences of `sep`; a text without the separator is a single piece. -/
def stringsSplit (sep : Char) : Str → List Str
  | [] => [[]]
  | c :: cs =>
    if c = sep then [] :: stringsSplit sep cs
    else
      match stringsSplit sep cs with
      | [] => [[c]]
      | p :: ps => (c :: p) :: ps

/-- Model of `unicode.IsSpace`. -/
def isSpace (c : Char) : Bool :=
  let n := c.toNat
  (9 ≤ n && n ≤ 13) || n = 32 || n = 0x85 || n = 0xA0 || n = 0x1680 ||
  (0x2000 ≤ n && n ≤ 0x200A) || n = 0x2028 || n = 0x2029 || n = 0x202F ||
  n = 0x205F || n = 0x3000

/-- Model of `strings.TrimSpace`: leading and trailing white space removed. -/
def trimSpace (s : Str) : Str :=
  ((s.dropWhile isSpace).reverse.dropWhile isSpace).reverse

/-- Model of `strings.TrimSuffix(s, suffix)`. -/
def trimSuffix (s suffix : Str) : Str :=
  if suffix.isSuffixOf s then s.take (s.length - suffix.length) else s

/-! ## The `html/template` fragment used by the command templates -/

/-- The command built by `exec.Command(name, args...)`. -/
structure Cmd where
  name : Str
  args : List Str
  deriving DecidableEq, Repr

/-- Model of `exec.Command`. -/
def execCommand (name : Str) (args : List Str) : Cmd := ⟨name, args⟩

/-- Errors of the manager: a template that does not parse or render, or a
process that does not start or exits with a non-zero status. -/
inductive Error where
  | template (msg : Str)
  | process (cmd : Cmd)
  deriving DecidableEq, Repr

/-- A template field value: the source passes strings and one `int`. -/
inductive Value where
  | str (s : Str)
  | int (n : Int)
  deriving DecidableEq, Repr

/-- A parsed template: literal text and field actions, in order. -/
inductive Seg where
  | text (s : Str)
  | field (name : Str)
  deriving DecidableEq, Repr

/-- Characters allowed in a field name. -/
def isIdentChar (c : Char) : Bool := c.isAlphanum || c = '_'

/-- Prepends a literal text segment unless it is empty. -/
def consText (acc : Str) (segs : List Seg) : List Seg :=
  if acc = [] then segs else Seg.text acc.reverse :: segs

/-- The body of an action: only the field access (a dot followed by a field name) is supported, which
is the only action the command templates use. -/
def mkField (body : Str) : Option Seg :=
  match body with
  | '.' :: name => if name ≠ [] ∧ name.all isIdentChar then some (Seg.field name) else none
  | _ => none

/-- Scanner of `template.Parse`: `inAction` tells whether an action delimiter is open and `acc`
holds the characters read since the last delimiter, newest first. An action
left open at the end of the text is an error. -/
def scan : Bool → Str → Str → Except Error (List Seg)
  | false, [], acc => .ok (consText acc [])
  | true, [], _ => .error (.template "unclosed action".toList)
  | false, [c], acc => .ok (consText (c :: acc) [])
  | true, [_], _ => .error (.template "unclosed action".toList)
  | false, c :: d :: rest, acc =>
    if c = '{' ∧ d = '{' then (scan true rest []).map (consText acc)
    else scan false (d :: rest) (c :: acc)
  | true, c :: d :: rest, acc =>
    if c = '}' ∧ d = '}' then
      match mkField acc.reverse with
      | some seg => (scan false rest []).map (seg :: ·)
      | none => .error (.template "unsupported action".toList)
    else scan true (d :: rest) (c :: acc)

/-- Model of `template.New(name).Parse(text)`. -/
def templateParse (text : Str) : Except Error (List Seg) := scan false text []

/-- The replacement table of the escaper `html/template` applies to an action in text context. -/
def htmlEscapeChar (c : Char) : Str :=
  if c = Char.ofNat 0 then [Char.ofNat 0xFFFD]
  else if c = Char.ofNat 34 then "&#34;".toList
  else if c = '&' then "&amp;".toList
  else if c = Char.ofNat 39 then "&#39;".toList
  else if c = '+' then "&#43;".toList
  else if c = '<' then "&lt;".toList
  else if c = '>' then "&gt;".toList
  else [c]

/-- Model of the HTML escaper: each character replaced through the table. -/
def htmlEscape (s : Str) : Str := s.flatMap htmlEscapeChar

/-- Text of a value as the template prints it, before escaping. -/
def Value.text : Value → Str
  | .str s => s
  | .int n => itoa n

/-- Field lookup in the data passed to `Execute`. -/
def lookupField (data : List (Str × Value)) (name : Str) : Option Value :=
  (data.find? (fun p => p.1 = name)).map (·.2)

/-- Model of `Template.Execute`: the text written to the buffer, or an error when a field is missing.
The command templates hold no markup, so every action is in text context. -/
def templateExecute : List Seg → List (Str × Value) → Except Error Str
  | [], _ => .ok []
  | Seg.text s :: rest, data => (templateExecute rest data).map (s ++ ·)
  | Seg.field name :: rest, data =>
    match lookupField data name with
    | none => .error (.template ("can't evaluate field ".toList ++ name))
    | some v => (templateExecute rest data).map (htmlEscape v.text ++ ·)

/-! ## Command templates of the source -/

/-- The constant `RunCmd`. -/
def RunCmd : Str :=
  "ignite run {{.Image}} --name={{.Name}} --ssh --kernel-image={{.KernelImage}} --cpus={{.Cpus}} --memory={{.Memory}} --size={{.DiskSize}}".toList

/-- The constant `DeleteCmd`. -/
def DeleteCmd : Str := "ignite rm {{.Name}} --force".toList

/-! ## Data model (`config.Node`, `data.Node`) -/

/-- The fields of `config.Cluster` the manager reads. -/
structure config.Cluster where
  Name : Str
  Image : Str
  KernelImage : Str
  KernelArgs : Str
  deriving DecidableEq, Repr

/-- The fields of `config.Node` the manager reads and fills. -/
structure config.Node where
  Cluster : config.Cluster
  Count : Int
  Cpus : Int
  Memory : Str
  DiskSize : Str
  deriving DecidableEq, Repr

/-- The fields of `data.NodeStatus` the manager fills. -/
structure data.NodeStatus where
  Running : Bool
  deriving DecidableEq, Repr

/-- The value `data.Node` returned by the queries. -/
structure data.Node where
  Name : Str
  Spec : config.Node
  Status : data.NodeStatus
  deriving DecidableEq, Repr

/-- The zero value `config.Node{}`. -/
def config.Node.zero : config.Node := ⟨⟨[], [], [], []⟩, 0, 0, [], []⟩

/-- The zero value `data.NodeStatus{}`. -/
def data.NodeStatus.zero : data.NodeStatus := ⟨false⟩

/-! ## External processes -/

/-- What the manager does to the outside world, in order. -/
inductive Event where
  | log (msg : Str)
  | start (cmd : Cmd)
  | wait (cmd : Cmd)
  | run (cmd : Cmd)
  | output (cmd : Cmd)
  deriving DecidableEq, Repr

/-- A `logrus` line whose format is a text, one `%s` and a closing bracket. -/
def logf (pre : String) (arg : Str) : Event := Event.log (pre.toList ++ arg ++ [')'])

/-- Outcome of one `sudo` process: whether it could be started, whether it exited with
status zero, and what it wrote to standard output. -/
structure ProcResult where
  started : Bool
  exitOk : Bool
  stdout : Str
  deriving DecidableEq, Repr

/-- The methods `cmd.Run` and `cmd.Output` report no error exactly when the process started and exited with status zero. -/
def ProcResult.ok (r : ProcResult) : Bool := r.started && r.exitOk

/-- The struct a field query writes to: `node.Spec` or `node.Status`. -/
inductive Target where
  | spec
  | status
  deriving DecidableEq, Repr

/-- One entry of `nodeValueFilters`: the destination struct, the output filter and the field name. -/
structure FieldQuery where
  target : Target
  filter : Str
  field : Str
  deriving DecidableEq, Repr

/-- The environment of a call: the outcome of each process, which may depend on everything that happened before,
the order in which the Go runtime ranges over the `nodeValueFilters` maps, and the order in which the
scheduler lets the pending events of spawned goroutines happen, some rearrangement of them. -/
structure Env where
  proc : List Event → Cmd → ProcResult
  mapOrder : List Event → List FieldQuery
  schedule : (pending : List Event) → { done : List Event // done.Perm pending }

/-! ## CreateNodes -/

/-- The loop bounds `for i := 1; i <= count; i++`: the ordinals 1 to `count`, none when `count` is below 1.
The counter is an unbounded integer here; the `int` of the source would wrap only after `2^63 - 1`
iterations. -/
def ordinals (count : Int) : List Nat := List.range' 1 count.toNat

/-- The derived node name `fmt.Sprintf("%s-%s-%s", clusterName, nodeType, strconv.Itoa(i))`;
`nodeType` is the text the `Type` value prints as. -/
def nodeName (clusterName nodeType : Str) (i : Nat) : Str :=
  clusterName ++ '-' :: (nodeType ++ '-' :: itoa (Int.ofNat i))

/-- The anonymous struct `CreateNodes` passes to the template. -/
structure CreateParams where
  Name : Str
  Image : Str
  KernelImage : Str
  KernelArgs : Str
  Cpus : Int
  Memory : Str
  DiskSize : Str
  deriving DecidableEq, Repr

/-- The struct literal built in the loop body of `CreateNodes`. -/
def createParams (nodeType : Str) (node : config.Node) (i : Nat) : CreateParams where
  Name := nodeName node.Cluster.Name nodeType i
  Image := node.Cluster.Image
  KernelImage := node.Cluster.KernelImage
  KernelArgs := node.Cluster.KernelArgs
  Cpus := node.Cpus
  Memory := node.Memory
  DiskSize := node.DiskSize

/-- The fields of the struct as the template engine sees them. -/
def CreateParams.fields (p : CreateParams) : List (Str × Value) :=
  [("Name".toList, .str p.Name), ("Image".toList, .str p.Image),
   ("KernelImage".toList, .str p.KernelImage), ("KernelArgs".toList, .str p.KernelArgs),
   ("Cpus".toList, .int p.Cpus), ("Memory".toList, .str p.Memory),
   ("DiskSize".toList, .str p.DiskSize)]

/-- The arguments handed to `exec.Command("sudo", ...)`: the rendered template split at every blank. -/
def renderArgs (tmp : List Seg) (data : List (Str × Value)) : Except Error (List Str) :=
  (templateExecute tmp data).map (stringsSplit ' ')

/-- The create invocation for one parameter set: parse `RunCmd`, execute, split. -/
def createArgs (p : CreateParams) : Except Error (List Str) :=
  match templateParse RunCmd with
  | .error e => .error e
  | .ok tmp => renderArgs tmp p.fields

/-- A process started by `CreateNodes` and not yet waited for. -/
structure Launched where
  name : Str
  cmd : Cmd
  exitOk : Bool
  deriving DecidableEq, Repr

/-- The body of the loop of `CreateNodes` for ordinal `i`: render the command, log, start the process.
A render error or a start error is returned; a started process is handed to a goroutine. -/
def startNode (env : Env) (tmp : List Seg) (nodeType : Str) (node : config.Node) (i : Nat)
    (hist : List Event) : List Event × Except Error Launched :=
  let p := createParams nodeType node i
  match renderArgs tmp p.fields with
  | .error e => (hist, .error e)
  | .ok argv =>
    let cmd := execCommand "sudo".toList argv
    let hist1 := hist ++ [logf "Creating node (" p.Name]
    let r := env.proc hist1 cmd
    let hist2 := hist1 ++ [Event.start cmd]
    if r.started then (hist2, .ok ⟨p.Name, cmd, r.exitOk⟩) else (hist2, .error (.process cmd))

/-- The loop of `CreateNodes` over the remaining ordinals; the first error returns at once. -/
def createLoop (env : Env) (tmp : List Seg) (nodeType : Str) (node : config.Node) :
    List Nat → List Event → List Launched → List Event × List Launched × Option Error
  | [], hist, launched => (hist, launched, none)
  | i :: rest, hist, launched =>
    match startNode env tmp nodeType node i hist with
    | (hist1, .error e) => (hist1, launched, some e)
    | (hist1, .ok l) => createLoop env tmp nodeType node rest hist1 (launched ++ [l])

/-- The goroutine spawned for a launched process: it waits for the process and logs a non-zero exit. -/
def goroutineEvents (l : Launched) : List Event :=
  Event.wait l.cmd :: (if l.exitOk then [] else [logf "failed to create node (" l.name])

/-- The method `IgniteNodeManager.CreateNodes`: the events of the calling goroutine in order, the events of
the spawned goroutines in the order the scheduler chose, and the returned error. How the two runs of events
interleave is not recorded. A return without error comes after `wgCreateNode.Wait()`, hence after every
event of the goroutines; an error return does not wait for them. -/
def CreateNodes (env : Env) (hist : List Event) (nodeType : Str) (node : config.Node) :
    List Event × List Event × Option Error :=
  let hist0 := hist ++ [logf "Creating nodes of cluster (" node.Cluster.Name]
  match templateParse RunCmd with
  | .error e => (hist0, [], some e)
  | .ok tmp =>
    match createLoop env tmp nodeType node (ordinals node.Count) hist0 [] with
    | (hist1, launched, err) =>
      (hist1, (env.schedule (launched.flatMap goroutineEvents)).val, err)

/-! ## DeleteNode and DeleteNodes -/

/-- The method `IgniteNodeManager.DeleteNode`. -/
def DeleteNode (env : Env) (hist : List Event) (name : Str) : List Event × Option Error :=
  let hist0 := hist ++ [logf "Deleting node (" name]
  match templateParse DeleteCmd with
  | .error e => (hist0, some e)
  | .ok tmp =>
    match renderArgs tmp [("Name".toList, .str name)] with
    | .error e => (hist0, some e)
    | .ok argv =>
      let cmd := execCommand "sudo".toList argv
      let r := env.proc hist0 cmd
      let hist1 := hist0 ++ [Event.run cmd]
      if r.ok then (hist1, none) else (hist1, some (.process cmd))

/-- The loop of `DeleteNodes` over the remaining ordinals; the first error returns at once. -/
def deleteLoop (env : Env) (nodeType : Str) (node : config.Node) :
    List Nat → List Event → List Event × Option Error
  | [], hist => (hist, none)
  | j :: rest, hist =>
    match DeleteNode env hist (nodeName node.Cluster.Name nodeType j) with
    | (hist1, some e) => (hist1, some e)
    | (hist1, none) => deleteLoop env nodeType node rest hist1

/-- The method `IgniteNodeManager.DeleteNodes`. -/
def DeleteNodes (env : Env) (hist : List Event) (nodeType : Str) (node : config.Node) :
    List Event × Option Error :=
  deleteLoop env nodeType node (ordinals node.Count)
    (hist ++ [logf "Deleting nodes of type (" nodeType])

/-! ## GetNode -/

/-- The loop of `strconv.ParseUint(s, 10, 64)`: a character that is not a decimal digit is a syntax error,
a value above `2^64 - 1` a range error. -/
def parseUintLoop : Str → Nat → Option Nat
  | [], n => some n
  | c :: rest, n =>
    if '0' ≤ c ∧ c ≤ '9' then
      let d := c.toNat - '0'.toNat
      if n ≥ (2 ^ 64 - 1) / 10 + 1 then none
      else
        let n1 := n * 10 + d
        if n1 > 2 ^ 64 - 1 then none else parseUintLoop rest n1
    else none

/-- Model of `strconv.ParseUint(s, 10, 64)`; `none` stands for an error. -/
def parseUint (s : Str) : Option Nat :=
  if s = [] then none else parseUintLoop s 0

/-- Model of `strconv.ParseInt(s, 10, 64)`; `none` stands for an error. -/
def parseInt (s : Str) : Option Int :=
  match s with
  | [] => none
  | c :: rest =>
    let neg := c = '-'
    let body := if c = '+' ∨ c = '-' then rest else s
    match parseUint body with
    | none => none
    | some un =>
      if ¬ neg ∧ un ≥ 2 ^ 63 then none
      else if neg ∧ un > 2 ^ 63 then none
      else some (if neg then - (un : Int) else (un : Int))

/-- Model of `strconv.ParseBool`; `none` stands for an error. -/
def parseBool (s : Str) : Option Bool :=
  if s ∈ ["1".toList, "t".toList, "T".toList, "TRUE".toList, "true".toList, "True".toList] then some true
  else if s ∈ ["0".toList, "f".toList, "F".toList, "FALSE".toList, "false".toList, "False".toList] then some false
  else none

/-- The entry of `nodeValueFilters` for the cpu count, a field of kind `int`. -/
def cpusQuery : FieldQuery := ⟨.spec, "{{.Spec.CPUs}}".toList, "Cpus".toList⟩

/-- The entry of `nodeValueFilters` for the memory size, a field of kind `string`. -/
def memoryQuery : FieldQuery := ⟨.spec, "{{.Spec.Memory}}".toList, "Memory".toList⟩

/-- The entry of `nodeValueFilters` for the disk size, a field of kind `string`. -/
def diskSizeQuery : FieldQuery := ⟨.spec, "{{.Spec.DiskSize}}".toList, "DiskSize".toList⟩

/-- The entry of `nodeValueFilters` for the running status, a field of kind `bool`. -/
def runningQuery : FieldQuery := ⟨.status, "{{.Status.Running}}".toList, "Running".toList⟩

/-- The map literal `nodeValueFilters`, in source order. -/
def nodeValueFilters : List FieldQuery :=
  [cpusQuery, memoryQuery, diskSizeQuery, runningQuery]

/-- The switch on `f.Kind()` after `FieldByName(field)`: a string field takes the text, an `int` field the
parsed integer, a `bool` field the parsed boolean; a text that does not parse changes nothing, and so
does a field of any other kind. -/
def setField (node : data.Node) (target : Target) (field fieldValue : Str) : data.Node :=
  match target with
  | .spec =>
    if field = "Memory".toList then { node with Spec := { node.Spec with Memory := fieldValue } }
    else if field = "DiskSize".toList then { node with Spec := { node.Spec with DiskSize := fieldValue } }
    else if field = "Cpus".toList then
      match parseInt fieldValue with
      | some i => { node with Spec := { node.Spec with Cpus := i } }
      | none => node
    else if field = "Count".toList then
      match parseInt fieldValue with
      | some i => { node with Spec := { node.Spec with Count := i } }
      | none => node
    else node
  | .status =>
    if field = "Running".toList then
      match parseBool fieldValue with
      | some b => { node with Status := { node.Status with Running := b } }
      | none => node
    else node

/-- The text a field query yields: `strings.TrimSuffix(strings.TrimSpace(string(output)), "\n")`. -/
def fieldText (output : Str) : Str := trimSuffix (trimSpace output) ['\n']

/-- The body of the inner loop of `GetNode` once the output is captured. -/
def populate (node : data.Node) (q : FieldQuery) (output : Str) : data.Node :=
  setField node q.target q.field (fieldText output)

/-- The arguments of the presence check of `GetNode`. -/
def getArgs (name : Str) : List Str :=
  stringsSplit ' ' ("ignite ps --all -f {{.ObjectMeta.Name}}=".toList ++ name)

/-- The loops of `GetNode` over the field queries, in the order the runtime chose; a failed query
returns its error at once. -/
def fieldLoop (env : Env) (cmdArgs : List Str) :
    List FieldQuery → List Event → data.Node → List Event × Except Error data.Node
  | [], hist, node => (hist, .ok node)
  | q :: rest, hist, node =>
    let newCmdArgs := cmdArgs ++ ["-t ".toList ++ q.filter]
    let cmd := execCommand "sudo".toList newCmdArgs
    let r := env.proc hist cmd
    let hist1 := hist ++ [Event.output cmd]
    if r.ok then fieldLoop env cmdArgs rest hist1 (populate node q r.stdout)
    else (hist1, .error (.process cmd))

/-- The method `IgniteNodeManager.GetNode`. -/
def GetNode (env : Env) (hist : List Event) (name : Str) : List Event × Except Error data.Node :=
  let hist0 := hist ++ [logf "Getting node (" name]
  let cmdArgs := getArgs name
  let cmd := execCommand "sudo".toList cmdArgs
  let r := env.proc hist0 cmd
  let hist1 := hist0 ++ [Event.run cmd]
  if r.ok then
    fieldLoop env cmdArgs (env.mapOrder hist1) hist1 ⟨name, config.Node.zero, data.NodeStatus.zero⟩
  else (hist1, .error (.process cmd))

/-! ## ListNodes -/

/-- The arguments of the list invocation of `ListNodes`. -/
def listArgs (clusterName : Str) : List Str :=
  let cmdArgs := stringsSplit ' ' "ignite ps --all".toList
  if clusterName ≠ [] then
    cmdArgs ++ ["-f".toList, "{{.ObjectMeta.Name}}=~".toList ++ clusterName, "-t".toList,
      "{{.ObjectMeta.Name}}".toList]
  else cmdArgs

/-- The loop of `ListNodes` over the names; the first `GetNode` error returns at once, with no records. -/
def getLoop (env : Env) :
    List Str → List Event → List data.Node → List Event × Except Error (List data.Node)
  | [], hist, nodes => (hist, .ok nodes)
  | n :: rest, hist, nodes =>
    match GetNode env hist n with
    | (hist1, .error e) => (hist1, .error e)
    | (hist1, .ok node) => getLoop env rest hist1 (nodes ++ [node])

/-- The method `IgniteNodeManager.ListNodes`. -/
def ListNodes (env : Env) (hist : List Event) (clusterName : Str) :
    List Event × Except Error (List data.Node) :=
  let hist0 := hist ++ [logf "Listing nodes of cluster (" clusterName]
  let cmd := execCommand "sudo".toList (listArgs clusterName)
  let r := env.proc hist0 cmd
  let hist1 := hist0 ++ [Event.output cmd]
  if r.ok then
    if r.stdout.length > 0 then getLoop env (stringsSplit '\n' (trimSpace r.stdout)) hist1 []
    else (hist1, .ok [])
  else (hist1, .error (.process cmd))

/-! ## Vocabulary of the properties -/

/-- The ten digit characters. -/
def digitChars : List Char := ['0', '1', '2', '3', '4', '5', '6', '7', '8', '9']

/-- The characters `html/template` replaces in text context. -/
def escapedChars : List Char :=
  [Char.ofNat 0, Char.ofNat 34, '&', Char.ofNat 39, '+', '<', '>']

/-- A text with no blank and no character the escaper replaces. -/
def Plain (s : Str) : Prop := ∀ c ∈ s, c ≠ ' ' ∧ c ∉ escapedChars

instance (s : Str) : Decidable (Plain s) := by
  unfold Plain
  infer_instance

/-- The number a text of decimal digits denotes, continuing from `init`. -/
def valueFrom (init : Nat) (s : Str) : Nat :=
  s.foldl (fun n c => n * 10 + (c.toNat - 48)) init

/-- The processes handed to `cmd.Start` in a run of events, in order. -/
def startedCmds (events : List Event) : List Cmd :=
  events.filterMap (fun e => match e with | .start c => some c | _ => none)

/-- The processes waited for with `cmd.Wait`, in order. -/
def waitedCmds (events : List Event) : List Cmd :=
  events.filterMap (fun e => match e with | .wait c => some c | _ => none)

/-- The processes run to completion with `cmd.Run`, in order. -/
def ranCmds (events : List Event) : List Cmd :=
  events.filterMap (fun e => match e with | .run c => some c | _ => none)

/-- Every process created in a run of events, by `Start`, `Run` or `Output`, in order. -/
def issuedCmds (events : List Event) : List Cmd :=
  events.filterMap (fun e =>
    match e with
    | .start c => some c
    | .run c => some c
    | .output c => some c
    | _ => none)

/-- The create invocation for one parameter set. -/
def createCmd (p : CreateParams) : Except Error Cmd :=
  (createArgs p).map (execCommand "sudo".toList)

/-- An environment in which every process starts and exits with status zero, printing nothing. -/
def envAllOk : Env := ⟨fun _ _ => ⟨true, true, []⟩, fun _ => [], fun g => ⟨g, List.Perm.refl g⟩⟩

/-- An environment in which every process starts and exits with a non-zero status. -/
def envExitFail : Env := ⟨fun _ _ => ⟨true, false, []⟩, fun _ => [], fun g => ⟨g, List.Perm.refl g⟩⟩

/-- An environment in which no process can be started. -/
def envNoStart : Env := ⟨fun _ _ => ⟨false, false, []⟩, fun _ => [], fun g => ⟨g, List.Perm.refl g⟩⟩

/-- A specification of two nodes of cluster `c`. -/
def twoNodes : config.Node := ⟨⟨"c".toList, "img".toList, "k".toList, []⟩, 2, 1, "1GB".toList, "2GB".toList⟩

/-- The arguments of the delete invocation for one name: parse `DeleteCmd`, execute, split. -/
def deleteArgs (name : Str) : Except Error (List Str) :=
  match templateParse DeleteCmd with
  | .error e => .error e
  | .ok tmp => renderArgs tmp [("Name".toList, .str name)]

/-- The delete invocation for one name. -/
def deleteCmd (name : Str) : Except Error Cmd :=
  (deleteArgs name).map (execCommand "sudo".toList)

/-- The events after the first `k` calls of `DeleteNode` made by `DeleteNodes`, one per ordinal from 1,
each call starting where the one before ended. -/
def deleteHist (env : Env) (nodeType : Str) (node : config.Node) (hist : List Event) :
    Nat → List Event
  | 0 => hist ++ [logf "Deleting nodes of type (" nodeType]
  | k + 1 =>
    (DeleteNode env (deleteHist env nodeType node hist k)
      (nodeName node.Cluster.Name nodeType (k + 1))).1

/-- The outcome of the call of `DeleteNode` for ordinal `k + 1`, made after the first `k` calls. -/
def deleteOutcome (env : Env) (nodeType : Str) (node : config.Node) (hist : List Event)
    (k : Nat) : Option Error :=
  (DeleteNode env (deleteHist env nodeType node hist k)
    (nodeName node.Cluster.Name nodeType (k + 1))).2

/-- An environment in which the second process and every later one exits with a non-zero status. -/
def envSecondFails : Env :=
  ⟨fun h _ => ⟨true, (issuedCmds h).length < 1, []⟩, fun _ => [], fun g => ⟨g, List.Perm.refl g⟩⟩

/-- What the properties call a valid base-10 integer `n` of 64 bits: an optional sign, then one decimal digit
or more, denoting a value between `-2^63` and `2^63 - 1`. -/
def IsDecimalInt (s : Str) (n : Int) : Prop :=
  ∃ sign body, s = sign ++ body ∧ (sign = [] ∨ sign = ['+'] ∨ sign = ['-']) ∧ body ≠ [] ∧
    (∀ c ∈ body, c ∈ digitChars) ∧
    n = (if sign = ['-'] then - (valueFrom 0 body : Int) else (valueFrom 0 body : Int)) ∧
    -(2 ^ 63 : Int) ≤ n ∧ n < 2 ^ 63

/-- What the properties call a valid boolean literal `b`: the spellings `strconv.ParseBool` documents. -/
def IsBoolLiteral (s : Str) (b : Bool) : Prop :=
  (b = true ∧ s ∈ ["1".toList, "t".toList, "T".toList, "TRUE".toList, "true".toList,
    "True".toList]) ∨
  (b = false ∧ s ∈ ["0".toList, "f".toList, "F".toList, "FALSE".toList, "false".toList,
    "False".toList])

/-- The command of the field query `q` for the node `name`. -/
def fieldCmd (name : Str) (q : FieldQuery) : Cmd :=
  execCommand "sudo".toList (getArgs name ++ ["-t ".toList ++ q.filter])

/-- A fresh record, as `GetNode` builds it before the field queries. -/
def freshNode (name : Str) : data.Node := ⟨name, config.Node.zero, data.NodeStatus.zero⟩

/-- An environment in which every process succeeds and prints `not-a-number`, the maps being ranged
over in source order. -/
def envGarbage : Env :=
  ⟨fun _ _ => ⟨true, true, "not-a-number".toList⟩, fun _ => nodeValueFilters,
    fun g => ⟨g, List.Perm.refl g⟩⟩

/-- The events after successive calls of `GetNode` for the given names, each call starting where the
one before ended. -/
def getHist (env : Env) : List Str → List Event → List Event
  | [], hist => hist
  | n :: rest, hist => getHist env rest (GetNode env hist n).1

/-- The results of successive calls of `GetNode` for the given names, in order. -/
def getResults (env : Env) : List Str → List Event → List (Except Error data.Node)
  | [], _ => []
  | n :: rest, hist => (GetNode env hist n).2 :: getResults env rest (GetNode env hist n).1

/-- The outcome of the list invocation of `ListNodes`. -/
def listResult (env : Env) (hist : List Event) (clusterName : Str) : ProcResult :=
  env.proc (hist ++ [logf "Listing nodes of cluster (" clusterName])
    (execCommand "sudo".toList (listArgs clusterName))

/-- The events of `ListNodes` up to and including its list invocation. -/
def listHist (hist : List Event) (clusterName : Str) : List Event :=
  hist ++ [logf "Listing nodes of cluster (" clusterName,
    Event.output (execCommand "sudo".toList (listArgs clusterName))]

/-- The names `ListNodes` takes from the output of the list invocation. -/
def listedNames (output : Str) : List Str := stringsSplit '\n' (trimSpace output)

/-- An environment in which every process succeeds, the listing of cluster `c` prints two names and every
other process prints `2`. -/
def envTwoListed : Env :=
  ⟨fun _ c => ⟨true, true, if c.args = listArgs "c".toList then "c-w-1\nc-w-2\n".toList else "2".toList⟩,
    fun _ => nodeValueFilters, fun g => ⟨g, List.Perm.refl g⟩⟩

/-! ## Closed forms of the parsed templates and of the rendered commands -/

/-- The parsed form of `RunCmd`. -/
def runSegs : List Seg :=
  [.text "ignite run ".toList, .field "Image".toList, .text " --name=".toList,
   .field "Name".toList, .text " --ssh --kernel-image=".toList, .field "KernelImage".toList,
   .text " --cpus=".toList, .field "Cpus".toList, .text " --memory=".toList,
   .field "Memory".toList, .text " --size=".toList, .field "DiskSize".toList]

/-- The parsed form of `DeleteCmd`. -/
def deleteSegs : List Seg :=
  [.text "ignite rm ".toList, .field "Name".toList, .text " --force".toList]

/-- The text `Execute` writes for `RunCmd`. -/
def runText (p : CreateParams) : Str :=
  "ignite".toList ++ ' ' :: ("run".toList ++ ' ' :: (htmlEscape p.Image ++ ' ' ::
    (("--name=".toList ++ htmlEscape p.Name) ++ ' ' :: ("--ssh".toList ++ ' ' ::
    (("--kernel-image=".toList ++ htmlEscape p.KernelImage) ++ ' ' ::
    (("--cpus=".toList ++ itoa p.Cpus) ++ ' ' ::
    (("--memory=".toList ++ htmlEscape p.Memory) ++ ' ' ::
    ("--size=".toList ++ htmlEscape p.DiskSize))))))))

/-- The number of blanks in the string parameters of a create invocation. -/
def CreateParams.blanks (p : CreateParams) : Nat :=
  p.Image.count ' ' + p.Name.count ' ' + p.KernelImage.count ' ' + p.Memory.count ' ' +
    p.DiskSize.count ' '

/-- The command `CreateNodes` builds for ordinal `k`. -/
def runCmdOf (nodeType : Str) (node : config.Node) (k : Nat) : Cmd :=
  execCommand "sudo".toList (stringsSplit ' ' (runText (createParams nodeType node k)))

/-- The text `Execute` writes for `DeleteCmd`. -/
def deleteText (name : Str) : Str :=
  "ignite".toList ++ ' ' :: ("rm".toList ++ ' ' :: (htmlEscape name ++ ' ' :: "--force".toList))

/-- The command `DeleteNode` builds for a name. -/
def deleteCmdOf (name : Str) : Cmd :=
  execCommand "sudo".toList (stringsSplit ' ' (deleteText name))

/-- The events of the calling goroutine of `CreateNodes` after the loop bodies of the first `k` ordinals, each
body starting where the one before ended. -/
def createHist (env : Env) (nodeType : Str) (node : config.Node) (hist : List Event) :
    Nat → List Event
  | 0 => hist ++ [logf "Creating nodes of cluster (" node.Cluster.Name]
  | k + 1 => (startNode env runSegs nodeType node (k + 1) (createHist env nodeType node hist k)).1

/-- The outcome of the loop body of `CreateNodes` for ordinal `k + 1`, run after the first `k` bodies. -/
def startOutcome (env : Env) (nodeType : Str) (node : config.Node) (hist : List Event)
    (k : Nat) : Except Error Launched :=
  (startNode env runSegs nodeType node (k + 1) (createHist env nodeType node hist k)).2

/-- An environment in which only the first process can be started. -/
def envSecondStartFails : Env :=
  ⟨fun h _ => ⟨(issuedCmds h).length < 1, true, []⟩, fun _ => [], fun g => ⟨g, List.Perm.refl g⟩⟩

/-- A specification of two nodes whose cluster name holds a blank. -/
def blankCluster : config.Node :=
  ⟨⟨"a b".toList, "img".toList, "k".toList, []⟩, 2, 1, "1GB".toList, "2GB".toList⟩

/-- A specification of one node whose cluster name holds an ampersand. -/
def ampersandCluster : config.Node :=
  ⟨⟨"a&b".toList, "img".toList, "k".toList, []⟩, 1, 1, "1GB".toList, "2GB".toList⟩

/-- A specification of one node whose image holds a blank followed by a name option. -/
def optionInImage : config.Node :=
  ⟨⟨"c".toList, "img --name=x".toList, "k".toList, []⟩, 1, 1, "1GB".toList, "2GB".toList⟩

/-! ## Facts about the library functions -/

theorem digit_char_mem (n : Nat) : Char.ofNat (48 + n % 10) ∈ digitChars := by
  have h : n % 10 < 10 := Nat.mod_lt _ (by decide)
  revert h
  generalize n % 10 = d
  intro h
  interval_cases d <;> decide

theorem digitsAux_mem (fuel n : Nat) (acc : Str) (c : Char)
    (h : c ∈ digitsAux fuel n acc) : c ∈ acc ∨ c ∈ digitChars := by
  induction fuel generalizing n acc with
  | zero => exact Or.inl h
  | succ k ih =>
    simp only [digitsAux] at h
    split at h
    · rcases List.mem_cons.mp h with h | h
      · exact Or.inr (h ▸ digit_char_mem n)
      · exact Or.inl h
    · rcases ih _ _ h with h | h
      · rcases List.mem_cons.mp h with h | h
        · exact Or.inr (h ▸ digit_char_mem n)
        · exact Or.inl h
      · exact Or.inr h

theorem natToDecimal_digits (n : Nat) (c : Char) (h : c ∈ natToDecimal n) : c ∈ digitChars := by
  rcases digitsAux_mem _ _ _ _ h with h | h
  · cases h
  · exact h

theorem stringsSplit_ne_nil (sep : Char) (s : Str) : stringsSplit sep s ≠ [] := by
  cases s with
  | nil => simp [stringsSplit]
  | cons c cs =>
    simp only [stringsSplit]
    split
    · simp
    · split <;> simp

theorem stringsSplit_cons_sep (sep : Char) (s : Str) :
    stringsSplit sep (sep :: s) = [] :: stringsSplit sep s := by
  simp [stringsSplit]

theorem stringsSplit_cons_ne (sep c : Char) (s : Str) (h : c ≠ sep) :
    stringsSplit sep (c :: s) =
      ((stringsSplit sep s).headD [] |>.cons c) :: (stringsSplit sep s).tail := by
  have hne := stringsSplit_ne_nil sep s
  simp only [stringsSplit, if_neg h]
  cases hs : stringsSplit sep s with
  | nil => exact absurd hs hne
  | cons p ps => simp

/-- A word without the separator, followed by the separator, is the first piece. -/
theorem stringsSplit_word (sep : Char) (w rest : Str) (h : sep ∉ w) :
    stringsSplit sep (w ++ sep :: rest) = w :: stringsSplit sep rest := by
  induction w with
  | nil => simp [stringsSplit_cons_sep]
  | cons c cs ih =>
    have hc : c ≠ sep := fun e => h (e ▸ List.mem_cons_self _ _)
    have hcs : sep ∉ cs := fun e => h (List.mem_cons_of_mem _ e)
    rw [List.cons_append, stringsSplit_cons_ne _ _ _ hc, ih hcs]
    simp

/-- A text without the separator is a single piece. -/
theorem stringsSplit_last (sep : Char) (w : Str) (h : sep ∉ w) :
    stringsSplit sep w = [w] := by
  induction w with
  | nil => simp [stringsSplit]
  | cons c cs ih =>
    have hc : c ≠ sep := fun e => h (e ▸ List.mem_cons_self _ _)
    have hcs : sep ∉ cs := fun e => h (List.mem_cons_of_mem _ e)
    rw [stringsSplit_cons_ne _ _ _ hc, ih hcs]
    simp

/-- The number of pieces is one more than the number of separators. -/
theorem stringsSplit_length (sep : Char) (s : Str) :
    (stringsSplit sep s).length = s.count sep + 1 := by
  induction s with
  | nil => simp [stringsSplit]
  | cons c cs ih =>
    by_cases hc : c = sep
    · subst hc
      simp [stringsSplit_cons_sep, ih]
    · have hne := stringsSplit_ne_nil sep cs
      rw [stringsSplit_cons_ne _ _ _ hc, List.count_cons_of_ne (Ne.symm hc)]
      cases hs : stringsSplit sep cs with
      | nil => exact absurd hs hne
      | cons p ps => rw [hs] at ih; simpa using ih

theorem htmlEscapeChar_blank (c : Char) : (htmlEscapeChar c).count ' ' = [c].count ' ' := by
  unfold htmlEscapeChar
  split_ifs with h1 h2 h3 h4 h5 h6 h7 <;> first | rfl | (subst_vars; decide)

/-- Escaping neither adds nor removes a blank. -/
theorem htmlEscape_count_blank (s : Str) : (htmlEscape s).count ' ' = s.count ' ' := by
  induction s with
  | nil => rfl
  | cons c cs ih =>
    have h := htmlEscapeChar_blank c
    simp only [htmlEscape, List.flatMap_cons, List.count_append] at *
    rw [ih, h, List.count_cons, List.count_cons]
    simp [Nat.add_comm]

theorem htmlEscape_blank_mem (s : Str) : ' ' ∈ htmlEscape s ↔ ' ' ∈ s := by
  rw [← List.count_pos_iff, ← List.count_pos_iff, htmlEscape_count_blank]

/-- A text none of whose characters is in the replacement table is written unchanged. -/
theorem htmlEscape_plain (s : Str) (h : ∀ c ∈ s, htmlEscapeChar c = [c]) : htmlEscape s = s := by
  induction s with
  | nil => rfl
  | cons c cs ih =>
    have h1 := h c (List.mem_cons_self _ _)
    have h2 := ih (fun d hd => h d (List.mem_cons_of_mem _ hd))
    simp only [htmlEscape, List.flatMap_cons] at *
    rw [h1, h2]
    rfl

theorem digitChars_plain (c : Char) (h : c ∈ digitChars) : htmlEscapeChar c = [c] ∧ c ≠ ' ' ∧ c ≠ '-' := by
  simp only [digitChars, List.mem_cons, List.mem_singleton, List.not_mem_nil, or_false] at h
  rcases h with h | h | h | h | h | h | h | h | h | h <;> subst h <;> decide

theorem itoa_plain (n : Int) (c : Char) (h : c ∈ itoa n) : htmlEscapeChar c = [c] ∧ c ≠ ' ' := by
  cases n with
  | ofNat k =>
    have := digitChars_plain c (natToDecimal_digits k c h)
    exact ⟨this.1, this.2.1⟩
  | negSucc k =>
    rcases List.mem_cons.mp h with h | h
    · subst h; decide
    · have := digitChars_plain c (natToDecimal_digits _ c h)
      exact ⟨this.1, this.2.1⟩

theorem htmlEscape_itoa (n : Int) : htmlEscape (itoa n) = itoa n :=
  htmlEscape_plain _ (fun c hc => (itoa_plain n c hc).1)

theorem itoa_no_blank (n : Int) : ' ' ∉ itoa n :=
  fun h => (itoa_plain n ' ' h).2 rfl

/-! ## The rendered create invocation -/

theorem templateParse_RunCmd : templateParse RunCmd = .ok runSegs := by rfl

theorem templateParse_DeleteCmd : templateParse DeleteCmd = .ok deleteSegs := by rfl

theorem templateExecute_run (p : CreateParams) :
    templateExecute runSegs p.fields = .ok (runText p) := by
  have h : templateExecute runSegs p.fields =
      .ok ("ignite run ".toList ++ (htmlEscape p.Image ++ (" --name=".toList ++
        (htmlEscape p.Name ++ (" --ssh --kernel-image=".toList ++ (htmlEscape p.KernelImage ++
        (" --cpus=".toList ++ (htmlEscape (itoa p.Cpus) ++ (" --memory=".toList ++
        (htmlEscape p.Memory ++ (" --size=".toList ++ (htmlEscape p.DiskSize ++ [])))))))))))) := by
    rfl
  rw [h, htmlEscape_itoa]
  simp [runText, List.append_assoc]

theorem createArgs_eq (p : CreateParams) :
    createArgs p = .ok (stringsSplit ' ' (runText p)) := by
  simp only [createArgs, templateParse_RunCmd, renderArgs, templateExecute_run]
  rfl

theorem not_mem_append_of {a b : Str} {c : Char} (ha : c ∉ a) (hb : c ∉ b) : c ∉ a ++ b := by
  simp [ha, hb]

/-- The nine arguments of the create invocation when no string parameter holds a blank. -/
theorem createArgs_noBlank (p : CreateParams)
    (hn : ' ' ∉ p.Name) (hi : ' ' ∉ p.Image) (hk : ' ' ∉ p.KernelImage)
    (hm : ' ' ∉ p.Memory) (hd : ' ' ∉ p.DiskSize) :
    createArgs p = .ok
      ["ignite".toList, "run".toList, htmlEscape p.Image, "--name=".toList ++ htmlEscape p.Name,
       "--ssh".toList, "--kernel-image=".toList ++ htmlEscape p.KernelImage,
       "--cpus=".toList ++ itoa p.Cpus, "--memory=".toList ++ htmlEscape p.Memory,
       "--size=".toList ++ htmlEscape p.DiskSize] := by
  have en := (htmlEscape_blank_mem p.Name).not.mpr hn
  have ei := (htmlEscape_blank_mem p.Image).not.mpr hi
  have ek := (htmlEscape_blank_mem p.KernelImage).not.mpr hk
  have em := (htmlEscape_blank_mem p.Memory).not.mpr hm
  have ed := (htmlEscape_blank_mem p.DiskSize).not.mpr hd
  rw [createArgs_eq, runText]
  rw [stringsSplit_word _ _ _ (by decide), stringsSplit_word _ _ _ (by decide),
    stringsSplit_word _ _ _ ei,
    stringsSplit_word _ _ _ (not_mem_append_of (by decide) en),
    stringsSplit_word _ _ _ (by decide),
    stringsSplit_word _ _ _ (not_mem_append_of (by decide) ek),
    stringsSplit_word _ _ _ (not_mem_append_of (by decide) (itoa_no_blank _)),
    stringsSplit_word _ _ _ (not_mem_append_of (by decide) em),
    stringsSplit_last _ _ (not_mem_append_of (by decide) ed)]

theorem itoa_count_blank (n : Int) : (itoa n).count ' ' = 0 :=
  List.count_eq_zero.mpr (itoa_no_blank n)

/-- Every blank inside a parameter adds one argument to the nine of the template. -/
theorem createArgs_length (p : CreateParams) :
    ∃ args, createArgs p = .ok args ∧ args.length = 9 + p.blanks := by
  refine ⟨_, createArgs_eq p, ?_⟩
  rw [stringsSplit_length, runText]
  simp only [List.count_append, List.count_cons, htmlEscape_count_blank, itoa_count_blank,
    CreateParams.blanks]
  simp only [show ("ignite".toList).count ' ' = 0 by decide,
    show ("run".toList).count ' ' = 0 by decide,
    show ("--name=".toList).count ' ' = 0 by decide,
    show ("--ssh".toList).count ' ' = 0 by decide,
    show ("--kernel-image=".toList).count ' ' = 0 by decide,
    show ("--cpus=".toList).count ' ' = 0 by decide,
    show ("--memory=".toList).count ' ' = 0 by decide,
    show ("--size=".toList).count ' ' = 0 by decide]
  simp
  omega

/-! ## The naming scheme -/

theorem digit_char_toNat (n : Nat) : (Char.ofNat (48 + n % 10)).toNat - 48 = n % 10 := by
  have h : n % 10 < 10 := Nat.mod_lt _ (by decide)
  revert h
  generalize n % 10 = d
  intro h
  interval_cases d <;> decide

theorem valueFrom_digitsAux (fuel n : Nat) (acc : Str) (h : n < fuel) :
    valueFrom 0 (digitsAux fuel n acc) = valueFrom n acc := by
  induction fuel generalizing n acc with
  | zero => omega
  | succ k ih =>
    simp only [digitsAux]
    split
    · rename_i h0
      have hn : n % 10 = n := by omega
      simp only [valueFrom, List.foldl_cons, digit_char_toNat]
      simp [hn]
    · rename_i h0
      rw [ih (n / 10) _ (by omega)]
      simp only [valueFrom, List.foldl_cons, digit_char_toNat]
      congr 1
      omega

theorem valueFrom_natToDecimal (n : Nat) : valueFrom 0 (natToDecimal n) = n := by
  rw [natToDecimal, valueFrom_digitsAux _ _ _ (Nat.lt_succ_self n)]
  rfl

theorem natToDecimal_injective (i j : Nat) (h : natToDecimal i = natToDecimal j) : i = j := by
  have := congrArg (valueFrom 0) h
  simpa [valueFrom_natToDecimal] using this

theorem natToDecimal_no_dash (n : Nat) : '-' ∉ natToDecimal n :=
  fun h => (digitChars_plain _ (natToDecimal_digits n _ h)).2.2 rfl

/-- A text is cut in one way only at its last dash. -/
theorem last_dash_unique (t1 t2 d1 d2 : Str) (h1 : '-' ∉ d1) (h2 : '-' ∉ d2)
    (h : t1 ++ '-' :: d1 = t2 ++ '-' :: d2) : t1 = t2 ∧ d1 = d2 := by
  induction t1 generalizing t2 with
  | nil =>
    cases t2 with
    | nil => simpa using h
    | cons c cs =>
      simp only [List.nil_append, List.cons_append, List.cons.injEq] at h
      exact absurd (h.2 ▸ List.mem_append_right cs (List.mem_cons_self _ _)) h1
  | cons a as ih =>
    cases t2 with
    | nil =>
      simp only [List.nil_append, List.cons_append, List.cons.injEq] at h
      exact absurd (h.2 ▸ List.mem_append_right as (List.mem_cons_self _ _)) h2
    | cons c cs =>
      simp only [List.cons_append, List.cons.injEq] at h
      obtain ⟨e1, e2⟩ := ih cs h.2
      exact ⟨by rw [h.1, e1], e2⟩

theorem nodeName_injective (cluster t1 t2 : Str) (i j : Nat)
    (h : nodeName cluster t1 i = nodeName cluster t2 j) : t1 = t2 ∧ i = j := by
  simp only [nodeName, List.append_cancel_left_eq, List.cons.injEq, true_and] at h
  obtain ⟨e1, e2⟩ := last_dash_unique _ _ _ _ (natToDecimal_no_dash i) (natToDecimal_no_dash j) h
  exact ⟨e1, natToDecimal_injective _ _ e2⟩

theorem ordinals_nodup (count : Int) : (ordinals count).Nodup := List.nodup_range' _ _

theorem htmlEscapeChar_of_not_escaped (c : Char) (h : c ∉ escapedChars) :
    htmlEscapeChar c = [c] := by
  simp only [escapedChars, List.mem_cons, List.mem_singleton, List.not_mem_nil, or_false,
    not_or] at h
  obtain ⟨h1, h2, h3, h4, h5, h6, h7⟩ := h
  simp [htmlEscapeChar, h1, h2, h3, h4, h5, h6, h7]

theorem Plain.escape {s : Str} (h : Plain s) : htmlEscape s = s :=
  htmlEscape_plain s (fun c hc => htmlEscapeChar_of_not_escaped c (h c hc).2)

theorem Plain.no_blank {s : Str} (h : Plain s) : ' ' ∉ s :=
  fun hc => (h ' ' hc).1 rfl

theorem Plain.append {a b : Str} (ha : Plain a) (hb : Plain b) : Plain (a ++ b) := by
  intro c hc
  rcases List.mem_append.mp hc with h | h
  · exact ha c h
  · exact hb c h

theorem Plain.cons {c : Char} {s : Str} (hc : c ≠ ' ' ∧ c ∉ escapedChars) (hs : Plain s) :
    Plain (c :: s) := by
  intro d hd
  rcases List.mem_cons.mp hd with h | h
  · exact h ▸ hc
  · exact hs d h

theorem itoa_ofNat_Plain (k : Nat) : Plain (itoa (Int.ofNat k)) := by
  intro c hc
  have h := digitChars_plain c (natToDecimal_digits k c hc)
  refine ⟨h.2.1, ?_⟩
  intro he
  have h1 := h.1
  simp only [escapedChars, List.mem_cons, List.mem_singleton, List.not_mem_nil, or_false] at he
  rcases he with e | e | e | e | e | e | e <;> subst e <;> revert h1 <;> decide

theorem nodeName_Plain (cluster nodeType : Str) (k : Nat) (hc : Plain cluster)
    (ht : Plain nodeType) : Plain (nodeName cluster nodeType k) :=
  hc.append (Plain.cons (by decide) (ht.append (Plain.cons (by decide) (itoa_ofNat_Plain k))))

/-! ## Properties of the rendered invocation and of the naming scheme -/

/-- C6: when the image, cluster name, node type, kernel image, memory and disk size hold no blank and
no character the HTML escaper replaces, the create invocation for ordinal `k` is `sudo` with exactly the nine
arguments of the template, the name argument being cluster, dash, type, dash, decimal ordinal. For
cluster c1, type worker, image img, two cpus, memory 2GB, disk 10GB and ordinal 1 the arguments
include the name, cpus, memory and size options and the image. The arguments are a function of the
specification alone, so rendering again gives the same list. -/
theorem C6_create_invocation_arguments :
    (∀ (nodeType : Str) (node : config.Node) (k : Nat),
      Plain node.Cluster.Image → Plain node.Cluster.Name → Plain nodeType →
      Plain node.Cluster.KernelImage → Plain node.Memory → Plain node.DiskSize →
      (createArgs (createParams nodeType node k)).map (execCommand "sudo".toList) =
        .ok ⟨"sudo".toList,
          ["ignite".toList, "run".toList, node.Cluster.Image,
           "--name=".toList ++
             (node.Cluster.Name ++ "-".toList ++ nodeType ++ "-".toList ++ itoa (Int.ofNat k)),
           "--ssh".toList, "--kernel-image=".toList ++ node.Cluster.KernelImage,
           "--cpus=".toList ++ itoa node.Cpus, "--memory=".toList ++ node.Memory,
           "--size=".toList ++ node.DiskSize]⟩) ∧
    (∀ (kernelImage kernelArgs : Str) (count : Int), Plain kernelImage →
      ∃ args,
        createArgs (createParams "worker".toList
          ⟨⟨"c1".toList, "img".toList, kernelImage, kernelArgs⟩, count, 2, "2GB".toList,
            "10GB".toList⟩ 1) = .ok args ∧
        args.length = 9 ∧
        "--name=c1-worker-1".toList ∈ args ∧ "--cpus=2".toList ∈ args ∧
        "--memory=2GB".toList ∈ args ∧ "--size=10GB".toList ∈ args ∧ "img".toList ∈ args) := by
  have gen : ∀ (nodeType : Str) (node : config.Node) (k : Nat),
      Plain node.Cluster.Image → Plain node.Cluster.Name → Plain nodeType →
      Plain node.Cluster.KernelImage → Plain node.Memory → Plain node.DiskSize →
      createArgs (createParams nodeType node k) =
        .ok ["ignite".toList, "run".toList, node.Cluster.Image,
           "--name=".toList ++ nodeName node.Cluster.Name nodeType k,
           "--ssh".toList, "--kernel-image=".toList ++ node.Cluster.KernelImage,
           "--cpus=".toList ++ itoa node.Cpus, "--memory=".toList ++ node.Memory,
           "--size=".toList ++ node.DiskSize] := by
    intro nodeType node k hi hc ht hk hm hd
    have hn := nodeName_Plain _ _ k hc ht
    have h := createArgs_noBlank (createParams nodeType node k) hn.no_blank hi.no_blank
      hk.no_blank hm.no_blank hd.no_blank
    simp only [createParams] at h hn ⊢
    rw [h, hn.escape, hi.escape, hk.escape, hm.escape, hd.escape]
  constructor
  · intro nodeType node k hi hc ht hk hm hd
    rw [gen nodeType node k hi hc ht hk hm hd]
    simp [Except.map, execCommand, nodeName, List.append_assoc]
  · intro kernelImage kernelArgs count hk
    refine ⟨_, gen "worker".toList _ 1 (show Plain "img".toList by decide)
      (show Plain "c1".toList by decide) (show Plain "worker".toList by decide) hk
      (show Plain "2GB".toList by decide) (show Plain "10GB".toList by decide),
      rfl, ?_, ?_, ?_, ?_, ?_⟩
    · simp
      rfl
    · simp
      rfl
    all_goals simp

/-- C6 at cluster c1, type worker, image img, kernel image vmlinux, two cpus, memory 2GB, disk 10GB and ordinal 1. -/
theorem C6_create_invocation_arguments_witness :
    (createArgs (createParams "worker".toList
        ⟨⟨"c1".toList, "img".toList, "vmlinux".toList, []⟩, 1, 2, "2GB".toList, "10GB".toList⟩
        1)).map (execCommand "sudo".toList) =
      .ok ⟨"sudo".toList,
        ["ignite".toList, "run".toList, "img".toList, "--name=c1-worker-1".toList,
         "--ssh".toList, "--kernel-image=vmlinux".toList, "--cpus=2".toList,
         "--memory=2GB".toList, "--size=10GB".toList]⟩ :=
  C6_create_invocation_arguments.1 "worker".toList
    ⟨⟨"c1".toList, "img".toList, "vmlinux".toList, []⟩, 1, 2, "2GB".toList, "10GB".toList⟩ 1
    (by decide) (by decide) (by decide) (by decide) (by decide) (by decide)

/-- C9, refuted as stated: with the image `a b` rendering succeeds and the image is split over two
arguments, so the list has ten entries and none of them holds the image whole. -/
theorem C9_blank_in_image_splits_argument :
    createArgs ⟨"n".toList, "a b".toList, "k".toList, [], 1, "1GB".toList, "2GB".toList⟩ =
      .ok ["ignite".toList, "run".toList, "a".toList, "b".toList, "--name=n".toList,
        "--ssh".toList, "--kernel-image=k".toList, "--cpus=1".toList, "--memory=1GB".toList,
        "--size=2GB".toList] := by
  rfl

/-- C9, as the code has it: rendering a create parameter set never fails and nothing is validated; the
argument list has the nine entries of the template plus one entry for every blank inside the string
parameters. When no string parameter holds a blank, the list is exactly the nine entries, each
parameter held whole, in HTML-escaped form, in its own argument. -/
theorem C9_create_arguments_and_blanks (p : CreateParams) :
    (∃ args, createArgs p = .ok args ∧ args.length = 9 + p.blanks) ∧
    (' ' ∉ p.Name → ' ' ∉ p.Image → ' ' ∉ p.KernelImage → ' ' ∉ p.Memory → ' ' ∉ p.DiskSize →
      createArgs p = .ok
        ["ignite".toList, "run".toList, htmlEscape p.Image,
         "--name=".toList ++ htmlEscape p.Name, "--ssh".toList,
         "--kernel-image=".toList ++ htmlEscape p.KernelImage,
         "--cpus=".toList ++ itoa p.Cpus, "--memory=".toList ++ htmlEscape p.Memory,
         "--size=".toList ++ htmlEscape p.DiskSize]) :=
  ⟨createArgs_length p, createArgs_noBlank p⟩

/-- C9 at a parameter set without blanks whose name holds an escaped character. -/
theorem C9_create_arguments_and_blanks_witness :
    createArgs ⟨"a&b".toList, "img".toList, "k".toList, [], -3, "1GB".toList, "2GB".toList⟩ =
      .ok ["ignite".toList, "run".toList, "img".toList, "--name=a&amp;b".toList,
        "--ssh".toList, "--kernel-image=k".toList, "--cpus=-3".toList, "--memory=1GB".toList,
        "--size=2GB".toList] :=
  (C9_create_arguments_and_blanks
    ⟨"a&b".toList, "img".toList, "k".toList, [], -3, "1GB".toList, "2GB".toList⟩).2
    (by decide) (by decide) (by decide) (by decide) (by decide)

/-- C10: for a fixed cluster name the derived name determines the pair of node type and ordinal,
whatever dashes or digits the type holds; so the names derived for the ordinals of one call are pairwise
distinct. -/
theorem C10_node_names_collision_free (cluster : Str) :
    Function.Injective (fun p : Str × Nat => nodeName cluster p.1 p.2) ∧
    (∀ (nodeType : Str) (count : Int),
      ((ordinals count).map (nodeName cluster nodeType)).Nodup) := by
  constructor
  · intro p q h
    obtain ⟨e1, e2⟩ := nodeName_injective cluster p.1 q.1 p.2 q.2 h
    exact Prod.ext e1 e2
  · intro nodeType count
    refine (ordinals_nodup count).map ?_
    intro i j h
    exact (nodeName_injective cluster nodeType nodeType i j h).2

/-- C10 at two types that differ by a dash and a digit: type `a` with ordinal 11 and type `a-1` with ordinal 1
get different names. -/
theorem C10_node_names_collision_free_witness :
    nodeName "c".toList "a".toList 11 ≠ nodeName "c".toList "a-1".toList 1 :=
  fun h => absurd
    (@(C10_node_names_collision_free "c".toList).1 ("a".toList, 11) ("a-1".toList, 1) h)
    (by decide)

/-! ## CreateNodes: what is started, what is waited for, what is returned -/

theorem renderArgs_run (p : CreateParams) :
    renderArgs runSegs p.fields = .ok (stringsSplit ' ' (runText p)) := by
  simp only [renderArgs, templateExecute_run]
  rfl

theorem createCmd_eq (nodeType : Str) (node : config.Node) (k : Nat) :
    createCmd (createParams nodeType node k) = .ok (runCmdOf nodeType node k) := by
  simp only [createCmd, createArgs_eq]
  rfl

@[simp] theorem startedCmds_nil : startedCmds [] = [] := rfl

@[simp] theorem startedCmds_append (a b : List Event) :
    startedCmds (a ++ b) = startedCmds a ++ startedCmds b := by
  simp [startedCmds]

@[simp] theorem startedCmds_logf (pre : String) (arg : Str) (es : List Event) :
    startedCmds (logf pre arg :: es) = startedCmds es := rfl

@[simp] theorem startedCmds_start (c : Cmd) (es : List Event) :
    startedCmds (Event.start c :: es) = c :: startedCmds es := rfl

@[simp] theorem startedCmds_wait (c : Cmd) (es : List Event) :
    startedCmds (Event.wait c :: es) = startedCmds es := rfl

@[simp] theorem startedCmds_run (c : Cmd) (es : List Event) :
    startedCmds (Event.run c :: es) = startedCmds es := rfl

@[simp] theorem startedCmds_output (c : Cmd) (es : List Event) :
    startedCmds (Event.output c :: es) = startedCmds es := rfl

@[simp] theorem waitedCmds_nil : waitedCmds [] = [] := rfl

@[simp] theorem waitedCmds_append (a b : List Event) :
    waitedCmds (a ++ b) = waitedCmds a ++ waitedCmds b := by
  simp [waitedCmds]

@[simp] theorem waitedCmds_logf (pre : String) (arg : Str) (es : List Event) :
    waitedCmds (logf pre arg :: es) = waitedCmds es := rfl

@[simp] theorem waitedCmds_start (c : Cmd) (es : List Event) :
    waitedCmds (Event.start c :: es) = waitedCmds es := rfl

@[simp] theorem waitedCmds_wait (c : Cmd) (es : List Event) :
    waitedCmds (Event.wait c :: es) = c :: waitedCmds es := rfl

@[simp] theorem waitedCmds_run (c : Cmd) (es : List Event) :
    waitedCmds (Event.run c :: es) = waitedCmds es := rfl

@[simp] theorem waitedCmds_output (c : Cmd) (es : List Event) :
    waitedCmds (Event.output c :: es) = waitedCmds es := rfl

@[simp] theorem ranCmds_nil : ranCmds [] = [] := rfl

@[simp] theorem ranCmds_append (a b : List Event) :
    ranCmds (a ++ b) = ranCmds a ++ ranCmds b := by
  simp [ranCmds]

@[simp] theorem ranCmds_logf (pre : String) (arg : Str) (es : List Event) :
    ranCmds (logf pre arg :: es) = ranCmds es := rfl

@[simp] theorem ranCmds_start (c : Cmd) (es : List Event) :
    ranCmds (Event.start c :: es) = ranCmds es := rfl

@[simp] theorem ranCmds_wait (c : Cmd) (es : List Event) :
    ranCmds (Event.wait c :: es) = ranCmds es := rfl

@[simp] theorem ranCmds_run (c : Cmd) (es : List Event) :
    ranCmds (Event.run c :: es) = c :: ranCmds es := rfl

@[simp] theorem ranCmds_output (c : Cmd) (es : List Event) :
    ranCmds (Event.output c :: es) = ranCmds es := rfl

@[simp] theorem issuedCmds_nil : issuedCmds [] = [] := rfl

@[simp] theorem issuedCmds_append (a b : List Event) :
    issuedCmds (a ++ b) = issuedCmds a ++ issuedCmds b := by
  simp [issuedCmds]

@[simp] theorem issuedCmds_logf (pre : String) (arg : Str) (es : List Event) :
    issuedCmds (logf pre arg :: es) = issuedCmds es := rfl

@[simp] theorem issuedCmds_start (c : Cmd) (es : List Event) :
    issuedCmds (Event.start c :: es) = c :: issuedCmds es := rfl

@[simp] theorem issuedCmds_wait (c : Cmd) (es : List Event) :
    issuedCmds (Event.wait c :: es) = issuedCmds es := rfl

@[simp] theorem issuedCmds_run (c : Cmd) (es : List Event) :
    issuedCmds (Event.run c :: es) = c :: issuedCmds es := rfl

@[simp] theorem issuedCmds_output (c : Cmd) (es : List Event) :
    issuedCmds (Event.output c :: es) = c :: issuedCmds es := rfl

theorem startNode_eq (env : Env) (nodeType : Str) (node : config.Node) (i : Nat)
    (hist : List Event) :
    startNode env runSegs nodeType node i hist =
      (hist ++ [logf "Creating node (" (createParams nodeType node i).Name,
          Event.start (runCmdOf nodeType node i)],
        if (env.proc (hist ++ [logf "Creating node (" (createParams nodeType node i).Name])
            (runCmdOf nodeType node i)).started then
          .ok ⟨(createParams nodeType node i).Name, runCmdOf nodeType node i,
            (env.proc (hist ++ [logf "Creating node (" (createParams nodeType node i).Name])
              (runCmdOf nodeType node i)).exitOk⟩
        else .error (.process (runCmdOf nodeType node i))) := by
  simp only [startNode, renderArgs_run]
  rw [show execCommand "sudo".toList
    (stringsSplit ' ' (runText (createParams nodeType node i))) = runCmdOf nodeType node i
    from rfl]
  split <;> simp [List.append_assoc]

theorem createHist_succ (env : Env) (nodeType : Str) (node : config.Node) (hist : List Event)
    (k : Nat) :
    createHist env nodeType node hist (k + 1) =
      createHist env nodeType node hist k ++
        [logf "Creating node (" (createParams nodeType node (k + 1)).Name,
          Event.start (runCmdOf nodeType node (k + 1))] := by
  rw [createHist, startNode_eq]

theorem startOutcome_eq (env : Env) (nodeType : Str) (node : config.Node) (hist : List Event)
    (k : Nat) :
    startOutcome env nodeType node hist k =
      if (env.proc (createHist env nodeType node hist k ++
            [logf "Creating node (" (createParams nodeType node (k + 1)).Name])
          (runCmdOf nodeType node (k + 1))).started then
        .ok ⟨(createParams nodeType node (k + 1)).Name, runCmdOf nodeType node (k + 1),
          (env.proc (createHist env nodeType node hist k ++
              [logf "Creating node (" (createParams nodeType node (k + 1)).Name])
            (runCmdOf nodeType node (k + 1))).exitOk⟩
      else .error (.process (runCmdOf nodeType node (k + 1))) := by
  rw [startOutcome, startNode_eq]

/-- The events of the first `k` loop bodies: one start per ordinal, in ascending order, and no other process. -/
theorem createHist_issued (env : Env) (nodeType : Str) (node : config.Node) (hist : List Event)
    (k : Nat) :
    ∃ new, createHist env nodeType node hist k = hist ++ new ∧
      issuedCmds new = (List.range' 1 k).map (runCmdOf nodeType node) ∧
      startedCmds new = issuedCmds new := by
  induction k with
  | zero => exact ⟨[logf "Creating nodes of cluster (" node.Cluster.Name], rfl, rfl, rfl⟩
  | succ k ih =>
    obtain ⟨new, h1, h2, h3⟩ := ih
    refine ⟨new ++ [logf "Creating node (" (createParams nodeType node (k + 1)).Name,
      Event.start (runCmdOf nodeType node (k + 1))], ?_, ?_, ?_⟩
    · rw [createHist_succ, h1, List.append_assoc]
    · rw [issuedCmds_append, h2, List.range'_1_concat, List.map_append]
      simp [Nat.add_comm]
    · rw [issuedCmds_append, startedCmds_append, h3]
      simp

theorem startOutcome_ok_cmd (env : Env) (nodeType : Str) (node : config.Node)
    (hist : List Event) (k : Nat) (l : Launched)
    (h : startOutcome env nodeType node hist k = .ok l) :
    l.cmd = runCmdOf nodeType node (k + 1) := by
  rw [startOutcome_eq] at h
  split at h
  · simp only [Except.ok.injEq] at h
    rw [← h]
  · cases h

theorem isOk_iff {ε α : Type} (x : Except ε α) : x.isOk = true ↔ ∃ a, x = .ok a := by
  cases x with
  | error e => simp [Except.isOk, Except.toBool]
  | ok a => simp [Except.isOk, Except.toBool]

/-- While the processes start the loop moves on to the next ordinal, one launched process per ordinal. -/
theorem createLoop_ok_steps (env : Env) (nodeType : Str) (node : config.Node)
    (hist : List Event) (m s : Nat) (rest : List Nat) (launched : List Launched)
    (hok : ∀ k, s ≤ k → k < s + m → (startOutcome env nodeType node hist k).isOk = true) :
    ∃ ls, createLoop env runSegs nodeType node (List.range' (s + 1) m ++ rest)
        (createHist env nodeType node hist s) launched =
      createLoop env runSegs nodeType node rest (createHist env nodeType node hist (s + m))
        (launched ++ ls) ∧
      ls.map Launched.cmd = (List.range' (s + 1) m).map (runCmdOf nodeType node) := by
  induction m generalizing s launched with
  | zero => exact ⟨[], by simp, rfl⟩
  | succ m ih =>
    obtain ⟨l, hl⟩ := (isOk_iff _).mp (hok s (Nat.le_refl s) (by omega))
    have hd : startNode env runSegs nodeType node (s + 1) (createHist env nodeType node hist s) =
        (createHist env nodeType node hist (s + 1), .ok l) := Prod.ext rfl hl
    obtain ⟨ls, h1, h2⟩ := ih (s + 1) (launched ++ [l])
      (fun k h1 h2 => hok k (by omega) (by omega))
    refine ⟨l :: ls, ?_, ?_⟩
    · rw [List.range'_succ, List.cons_append]
      simp only [createLoop, hd]
      rw [h1]
      simp [List.append_assoc, Nat.add_assoc, Nat.add_comm 1 m]
    · rw [List.range'_succ, List.map_cons, List.map_cons, h2,
        startOutcome_ok_cmd env nodeType node hist s l hl]

theorem waitedCmds_goroutines (ls : List Launched) :
    waitedCmds (ls.flatMap goroutineEvents) = ls.map Launched.cmd := by
  induction ls with
  | nil => rfl
  | cons l rest ih =>
    rw [List.flatMap_cons, waitedCmds_append, ih, goroutineEvents]
    by_cases h : l.exitOk = true <;> simp [h]

theorem issuedCmds_goroutines (ls : List Launched) :
    issuedCmds (ls.flatMap goroutineEvents) = [] := by
  induction ls with
  | nil => rfl
  | cons l rest ih =>
    rw [List.flatMap_cons, issuedCmds_append, ih, goroutineEvents]
    by_cases h : l.exitOk = true <;> simp [h]

/-- Whatever the scheduler does, the goroutines create no process and wait for the launched ones, each once. -/
theorem schedule_goroutines (env : Env) (ls : List Launched) :
    issuedCmds (env.schedule (ls.flatMap goroutineEvents)).val = [] ∧
    (waitedCmds (env.schedule (ls.flatMap goroutineEvents)).val).Perm (ls.map Launched.cmd) := by
  have hp := (env.schedule (ls.flatMap goroutineEvents)).property
  constructor
  · have h := List.Perm.filterMap (fun e =>
      match e with
      | .start c => some c
      | .run c => some c
      | .output c => some c
      | _ => none) hp
    have h0 := issuedCmds_goroutines ls
    unfold issuedCmds at h0 ⊢
    rw [h0] at h
    exact h.eq_nil
  · have h := List.Perm.filterMap (fun e => match e with | .wait c => some c | _ => none) hp
    have h0 := waitedCmds_goroutines ls
    unfold waitedCmds at h0 ⊢
    rw [h0] at h
    exact h

/-- The call when the loop bodies of all ordinals start their process. -/
theorem CreateNodes_all_started (env : Env) (hist : List Event) (nodeType : Str)
    (node : config.Node)
    (hok : ∀ k, k < node.Count.toNat → (startOutcome env nodeType node hist k).isOk = true) :
    (CreateNodes env hist nodeType node).1 = createHist env nodeType node hist node.Count.toNat ∧
    (CreateNodes env hist nodeType node).2.2 = none ∧
    issuedCmds (CreateNodes env hist nodeType node).2.1 = [] ∧
    (waitedCmds (CreateNodes env hist nodeType node).2.1).Perm
      ((List.range' 1 node.Count.toNat).map (runCmdOf nodeType node)) := by
  obtain ⟨ls, h1, h2⟩ := createLoop_ok_steps env nodeType node hist node.Count.toNat 0 [] []
    (fun k _ hk => hok k (by omega))
  simp only [Nat.zero_add, List.append_nil, List.nil_append] at h1 h2
  have hs := schedule_goroutines env ls
  have hloop : createLoop env runSegs nodeType node (ordinals node.Count)
      (hist ++ [logf "Creating nodes of cluster (" node.Cluster.Name]) [] =
      (createHist env nodeType node hist node.Count.toNat, ls, none) := by
    rw [show hist ++ [logf "Creating nodes of cluster (" node.Cluster.Name] =
      createHist env nodeType node hist 0 from rfl, ordinals, h1]
    simp only [createLoop]
  simp only [CreateNodes, templateParse_RunCmd]
  rw [hloop]
  exact ⟨rfl, rfl, hs.1, h2 ▸ hs.2⟩

/-- The call when the loop body of ordinal `i + 1` is the first whose process does not start. -/
theorem CreateNodes_first_error (env : Env) (hist : List Event) (nodeType : Str)
    (node : config.Node) (i : Nat) (e : Error) (hi : i < node.Count.toNat)
    (hok : ∀ k, k < i → (startOutcome env nodeType node hist k).isOk = true)
    (he : startOutcome env nodeType node hist i = .error e) :
    (CreateNodes env hist nodeType node).1 = createHist env nodeType node hist (i + 1) ∧
    (CreateNodes env hist nodeType node).2.2 = some e ∧
    issuedCmds (CreateNodes env hist nodeType node).2.1 = [] := by
  have hsplit : List.range' 1 node.Count.toNat =
      List.range' (0 + 1) i ++ (i + 1) :: List.range' (i + 2) (node.Count.toNat - i - 1) := by
    have h1 : node.Count.toNat = (node.Count.toNat - i - 1 + 1) + i := by omega
    calc List.range' 1 node.Count.toNat
        = List.range' 1 ((node.Count.toNat - i - 1 + 1) + i) := by rw [← h1]
      _ = List.range' 1 i ++ List.range' (1 + i) (node.Count.toNat - i - 1 + 1) :=
          (List.range'_append_1 1 i _).symm
      _ = _ := by
          rw [List.range'_succ]
          simp [Nat.add_comm, Nat.add_left_comm]
  obtain ⟨ls, h1, _⟩ := createLoop_ok_steps env nodeType node hist i 0
    ((i + 1) :: List.range' (i + 2) (node.Count.toNat - i - 1)) []
    (fun k _ hk => hok k (by omega))
  have hd : startNode env runSegs nodeType node (i + 1)
      (createHist env nodeType node hist (0 + i)) =
      (createHist env nodeType node hist (i + 1), .error e) := by
    rw [Nat.zero_add]
    exact Prod.ext rfl he
  have hs := schedule_goroutines env ([] ++ ls)
  have hloop : createLoop env runSegs nodeType node (ordinals node.Count)
      (hist ++ [logf "Creating nodes of cluster (" node.Cluster.Name]) [] =
      (createHist env nodeType node hist (i + 1), [] ++ ls, some e) := by
    rw [show hist ++ [logf "Creating nodes of cluster (" node.Cluster.Name] =
      createHist env nodeType node hist 0 from rfl, ordinals, hsplit, h1]
    simp only [createLoop, hd]
  simp only [CreateNodes, templateParse_RunCmd]
  rw [hloop]
  exact ⟨rfl, rfl, hs.1⟩




theorem map_ok_createCmd (nodeType : Str) (node : config.Node) (ks : List Nat) :
    (ks.map (runCmdOf nodeType node)).map Except.ok =
      ks.map (fun k => createCmd (createParams nodeType node k)) := by
  simp [List.map_map, Function.comp_def, createCmd_eq]

/-- The command of ordinal `k` written out, when the name parts are plain and no other text holds a blank. -/
theorem runCmdOf_plain (nodeType : Str) (node : config.Node) (k : Nat)
    (hc : Plain node.Cluster.Name) (ht : Plain nodeType) (hi : ' ' ∉ node.Cluster.Image)
    (hk : ' ' ∉ node.Cluster.KernelImage) (hm : ' ' ∉ node.Memory) (hd : ' ' ∉ node.DiskSize) :
    runCmdOf nodeType node k =
      ⟨"sudo".toList,
        ["ignite".toList, "run".toList, htmlEscape node.Cluster.Image,
         "--name=".toList ++
           (node.Cluster.Name ++ "-".toList ++ nodeType ++ "-".toList ++ itoa (Int.ofNat k)),
         "--ssh".toList, "--kernel-image=".toList ++ htmlEscape node.Cluster.KernelImage,
         "--cpus=".toList ++ itoa node.Cpus, "--memory=".toList ++ htmlEscape node.Memory,
         "--size=".toList ++ htmlEscape node.DiskSize]⟩ := by
  have hn := nodeName_Plain _ _ k hc ht
  have h := createArgs_noBlank (createParams nodeType node k) hn.no_blank hi hk hm hd
  rw [createArgs_eq] at h
  have h2 := Except.ok.inj h
  simp only [createParams] at h2 hn
  rw [hn.escape] at h2
  simp only [runCmdOf, execCommand, createParams, h2]
  simp [nodeName, List.append_assoc]

theorem startOutcome_isOk_of_started (env : Env) (nodeType : Str) (node : config.Node)
    (hist : List Event) (hstart : ∀ h c, (env.proc h c).started = true) (k : Nat) :
    (startOutcome env nodeType node hist k).isOk = true := by
  rw [startOutcome_eq, hstart]
  rfl

/-- C1, refuted as stated: for the cluster name `a b` both invocations carry the name argument `--name=a`,
the rest of the derived name being split off into an argument of its own; for the cluster name `a&b` the
name argument holds `a&amp;b-w-1`; and an image that holds a blank and a name option puts a second name
argument into the invocation. -/
theorem C1_blank_in_cluster_name_splits_name :
    issuedCmds (CreateNodes envAllOk [] "w".toList blankCluster).1 =
      [⟨"sudo".toList, ["ignite".toList, "run".toList, "img".toList, "--name=a".toList,
          "b-w-1".toList, "--ssh".toList, "--kernel-image=k".toList, "--cpus=1".toList,
          "--memory=1GB".toList, "--size=2GB".toList]⟩,
       ⟨"sudo".toList, ["ignite".toList, "run".toList, "img".toList, "--name=a".toList,
          "b-w-2".toList, "--ssh".toList, "--kernel-image=k".toList, "--cpus=1".toList,
          "--memory=1GB".toList, "--size=2GB".toList]⟩] ∧
    issuedCmds (CreateNodes envAllOk [] "w".toList ampersandCluster).1 =
      [⟨"sudo".toList, ["ignite".toList, "run".toList, "img".toList,
          "--name=a&amp;b-w-1".toList, "--ssh".toList, "--kernel-image=k".toList,
          "--cpus=1".toList, "--memory=1GB".toList, "--size=2GB".toList]⟩] ∧
    issuedCmds (CreateNodes envAllOk [] "w".toList optionInImage).1 =
      [⟨"sudo".toList, ["ignite".toList, "run".toList, "img".toList, "--name=x".toList,
          "--name=c-w-1".toList, "--ssh".toList, "--kernel-image=k".toList, "--cpus=1".toList,
          "--memory=1GB".toList, "--size=2GB".toList]⟩] := by
  decide

/-- C1, as the code has it: when every process start succeeds, the cluster name and the node type hold no
blank and no character the HTML escaper replaces, and the image, kernel image, memory and disk size hold no
blank, `CreateNodes` returns no error and the processes it creates are exactly one `sudo ignite run` per
ordinal from 1 to the count, in that order, each with the nine arguments of the template, the name argument
of ordinal `k` being `--name=` followed by cluster, dash, type, dash, decimal `k`; the goroutines create
no process. For a count of zero or less, whatever the specification, nothing is started and no error is
returned. -/
theorem C1_create_issues_one_invocation_per_ordinal (env : Env) (hist : List Event)
    (nodeType : Str) (node : config.Node) :
    ((∀ h c, (env.proc h c).started = true) →
      Plain node.Cluster.Name → Plain nodeType → ' ' ∉ node.Cluster.Image →
      ' ' ∉ node.Cluster.KernelImage → ' ' ∉ node.Memory → ' ' ∉ node.DiskSize →
      ∃ new, (CreateNodes env hist nodeType node).1 = hist ++ new ∧
        (CreateNodes env hist nodeType node).2.2 = none ∧
        issuedCmds new =
          (List.range' 1 node.Count.toNat).map (fun k =>
            (⟨"sudo".toList,
              ["ignite".toList, "run".toList, htmlEscape node.Cluster.Image,
               "--name=".toList ++
                 (node.Cluster.Name ++ "-".toList ++ nodeType ++ "-".toList ++
                   itoa (Int.ofNat k)),
               "--ssh".toList, "--kernel-image=".toList ++ htmlEscape node.Cluster.KernelImage,
               "--cpus=".toList ++ itoa node.Cpus, "--memory=".toList ++ htmlEscape node.Memory,
               "--size=".toList ++ htmlEscape node.DiskSize]⟩ : Cmd)) ∧
        startedCmds new = issuedCmds new ∧
        issuedCmds (CreateNodes env hist nodeType node).2.1 = []) ∧
    (node.Count ≤ 0 →
      (CreateNodes env hist nodeType node).1 =
        hist ++ [logf "Creating nodes of cluster (" node.Cluster.Name] ∧
      (CreateNodes env hist nodeType node).2.1 = [] ∧
      (CreateNodes env hist nodeType node).2.2 = none) := by
  constructor
  · intro hstart hc ht hi hk hm hd
    obtain ⟨h1, h2, h3, _⟩ := CreateNodes_all_started env hist nodeType node
      (fun k _ => startOutcome_isOk_of_started env nodeType node hist hstart k)
    obtain ⟨new, e1, e2, e3⟩ := createHist_issued env nodeType node hist node.Count.toNat
    refine ⟨new, by rw [h1, e1], h2, ?_, e3, h3⟩
    rw [e2]
    exact List.map_congr_left (fun k _ => runCmdOf_plain nodeType node k hc ht hi hk hm hd)
  · intro hcount
    have hp := (env.schedule []).property
    have hloop : createLoop env runSegs nodeType node (ordinals node.Count)
        (hist ++ [logf "Creating nodes of cluster (" node.Cluster.Name]) [] =
        (hist ++ [logf "Creating nodes of cluster (" node.Cluster.Name], [], none) := by
      rw [ordinals, Int.toNat_of_nonpos hcount]
      rfl
    simp only [CreateNodes, templateParse_RunCmd]
    rw [hloop]
    exact ⟨rfl, hp.eq_nil, rfl⟩

/-- C1 for two nodes of cluster `c` and type `w` when every process starts: the invocations are those named
`c-w-1` and `c-w-2`. -/
theorem C1_create_issues_one_invocation_per_ordinal_witness :
    ∃ new, (CreateNodes envAllOk [] "w".toList twoNodes).1 = [] ++ new ∧
      (CreateNodes envAllOk [] "w".toList twoNodes).2.2 = none ∧
      issuedCmds new =
        [⟨"sudo".toList, ["ignite".toList, "run".toList, "img".toList, "--name=c-w-1".toList,
            "--ssh".toList, "--kernel-image=k".toList, "--cpus=1".toList, "--memory=1GB".toList,
            "--size=2GB".toList]⟩,
         ⟨"sudo".toList, ["ignite".toList, "run".toList, "img".toList, "--name=c-w-2".toList,
            "--ssh".toList, "--kernel-image=k".toList, "--cpus=1".toList, "--memory=1GB".toList,
            "--size=2GB".toList]⟩] ∧
      startedCmds new = issuedCmds new ∧
      issuedCmds (CreateNodes envAllOk [] "w".toList twoNodes).2.1 = [] :=
  (C1_create_issues_one_invocation_per_ordinal envAllOk [] "w".toList twoNodes).1
    (fun _ _ => rfl) (by decide) (by decide) (by decide) (by decide) (by decide) (by decide)



/-- C2, refuted as stated: when the first of two processes cannot be started, `CreateNodes` returns
that error after a single invocation; the second invocation is never issued. -/
theorem C2_start_failure_aborts_create :
    CreateNodes envNoStart [] "w".toList twoNodes =
      ([logf "Creating nodes of cluster (" "c".toList, logf "Creating node (" "c-w-1".toList,
        Event.start ⟨"sudo".toList, ["ignite".toList, "run".toList, "img".toList,
          "--name=c-w-1".toList, "--ssh".toList, "--kernel-image=k".toList, "--cpus=1".toList,
          "--memory=1GB".toList, "--size=2GB".toList]⟩],
       [],
       some (.process ⟨"sudo".toList, ["ignite".toList, "run".toList, "img".toList,
          "--name=c-w-1".toList, "--ssh".toList, "--kernel-image=k".toList, "--cpus=1".toList,
          "--memory=1GB".toList, "--size=2GB".toList]⟩)) := by
  decide

/-- C2, as the code has it. The loop body of each ordinal issues the create invocation of that ordinal and
nothing else, and it fails exactly when the process does not start, with the error of that start. When the
processes of all ordinals start, whatever subset of them exits with a non-zero status, `CreateNodes`
issues the invocations of all ordinals, every launched process is waited for once, by its goroutine and in an
order the scheduler chooses, and no error is returned. When the process of ordinal `i + 1` is the first that does
not start, `CreateNodes` returns the error of that start and the calling goroutine stops after the
invocations of the ordinals 1 to `i + 1`: no later one is issued. An error is returned in no other case. -/
theorem C2_create_tolerates_exit_failures (env : Env) (hist : List Event) (nodeType : Str)
    (node : config.Node) :
    (∀ k, ∃ c, createCmd (createParams nodeType node (k + 1)) = .ok c ∧
      startOutcome env nodeType node hist k =
        if (env.proc (createHist env nodeType node hist k ++
            [logf "Creating node (" (createParams nodeType node (k + 1)).Name]) c).started then
          .ok ⟨(createParams nodeType node (k + 1)).Name, c,
            (env.proc (createHist env nodeType node hist k ++
              [logf "Creating node (" (createParams nodeType node (k + 1)).Name]) c).exitOk⟩
        else .error (.process c)) ∧
    (∀ k, ∃ new, createHist env nodeType node hist k = hist ++ new ∧
      (issuedCmds new).map Except.ok =
        (List.range' 1 k).map (fun j => createCmd (createParams nodeType node j)) ∧
      startedCmds new = issuedCmds new) ∧
    ((∀ k, k < node.Count.toNat → (startOutcome env nodeType node hist k).isOk = true) →
      (CreateNodes env hist nodeType node).1 =
        createHist env nodeType node hist node.Count.toNat ∧
      (CreateNodes env hist nodeType node).2.2 = none ∧
      issuedCmds (CreateNodes env hist nodeType node).2.1 = [] ∧
      ((waitedCmds (CreateNodes env hist nodeType node).2.1).map Except.ok).Perm
        ((List.range' 1 node.Count.toNat).map
          (fun j => createCmd (createParams nodeType node j)))) ∧
    (∀ i e, i < node.Count.toNat →
      (∀ k, k < i → (startOutcome env nodeType node hist k).isOk = true) →
      startOutcome env nodeType node hist i = .error e →
      (CreateNodes env hist nodeType node).1 = createHist env nodeType node hist (i + 1) ∧
      (CreateNodes env hist nodeType node).2.2 = some e ∧
      issuedCmds (CreateNodes env hist nodeType node).2.1 = []) ∧
    (∀ e, (CreateNodes env hist nodeType node).2.2 = some e →
      ∃ i, i < node.Count.toNat ∧
        (∀ k, k < i → (startOutcome env nodeType node hist k).isOk = true) ∧
        startOutcome env nodeType node hist i = .error e) := by
  refine ⟨?_, ?_, ?_, ?_, ?_⟩
  · intro k
    exact ⟨runCmdOf nodeType node (k + 1), createCmd_eq nodeType node (k + 1),
      startOutcome_eq env nodeType node hist k⟩
  · intro k
    obtain ⟨new, h1, h2, h3⟩ := createHist_issued env nodeType node hist k
    exact ⟨new, h1, by rw [h2, map_ok_createCmd], h3⟩
  · intro hok
    obtain ⟨h1, h2, h3, h4⟩ := CreateNodes_all_started env hist nodeType node hok
    refine ⟨h1, h2, h3, ?_⟩
    rw [← map_ok_createCmd]
    exact h4.map _
  · intro i e hi hok he
    exact CreateNodes_first_error env hist nodeType node i e hi hok he
  · intro e he
    by_cases hall : ∀ k, k < node.Count.toNat →
        (startOutcome env nodeType node hist k).isOk = true
    · rw [(CreateNodes_all_started env hist nodeType node hall).2.1] at he
      cases he
    · have hex : ∃ k, k < node.Count.toNat ∧
          ¬ (startOutcome env nodeType node hist k).isOk = true := by
        by_contra hno
        exact hall (fun k hk => by
          by_contra hk2
          exact hno ⟨k, hk, hk2⟩)
      obtain ⟨hi, hbad⟩ := Nat.find_spec hex
      have hmin : ∀ k, k < Nat.find hex →
          (startOutcome env nodeType node hist k).isOk = true := by
        intro k hk
        by_contra hk2
        exact Nat.find_min hex hk ⟨by omega, hk2⟩
      cases hso : startOutcome env nodeType node hist (Nat.find hex) with
      | ok l =>
        rw [hso] at hbad
        exact absurd rfl hbad
      | error e2 =>
        have h := (CreateNodes_first_error env hist nodeType node _ e2 hi hmin hso).2.1
        rw [h] at he
        simp only [Option.some.injEq] at he
        exact ⟨Nat.find hex, hi, hmin, he ▸ hso⟩

/-- C2 for two nodes: when both processes start and exit with a non-zero status no error is returned and
both are waited for; when only the first process starts, the error is the failed start of `c-w-2`. -/
theorem C2_create_tolerates_exit_failures_witness :
    ((CreateNodes envExitFail [] "w".toList twoNodes).1 =
        createHist envExitFail "w".toList twoNodes [] twoNodes.Count.toNat ∧
      (CreateNodes envExitFail [] "w".toList twoNodes).2.2 = none ∧
      issuedCmds (CreateNodes envExitFail [] "w".toList twoNodes).2.1 = [] ∧
      ((waitedCmds (CreateNodes envExitFail [] "w".toList twoNodes).2.1).map Except.ok).Perm
        ((List.range' 1 twoNodes.Count.toNat).map
          (fun j => createCmd (createParams "w".toList twoNodes j)))) ∧
    ((CreateNodes envSecondStartFails [] "w".toList twoNodes).1 =
        createHist envSecondStartFails "w".toList twoNodes [] (1 + 1) ∧
      (CreateNodes envSecondStartFails [] "w".toList twoNodes).2.2 =
        some (.process ⟨"sudo".toList, ["ignite".toList, "run".toList, "img".toList,
          "--name=c-w-2".toList, "--ssh".toList, "--kernel-image=k".toList, "--cpus=1".toList,
          "--memory=1GB".toList, "--size=2GB".toList]⟩) ∧
      issuedCmds (CreateNodes envSecondStartFails [] "w".toList twoNodes).2.1 = []) :=
  ⟨(C2_create_tolerates_exit_failures envExitFail [] "w".toList twoNodes).2.2.1 (by decide),
   (C2_create_tolerates_exit_failures envSecondStartFails [] "w".toList twoNodes).2.2.2.1 1 _
     (by decide) (by decide) rfl⟩

/-! ## DeleteNodes -/

theorem renderArgs_delete (name : Str) :
    renderArgs deleteSegs [("Name".toList, .str name)] = .ok (stringsSplit ' ' (deleteText name)) := by
  have h : templateExecute deleteSegs [("Name".toList, .str name)] =
      .ok ("ignite rm ".toList ++ (htmlEscape name ++ (" --force".toList ++ []))) := by rfl
  simp only [renderArgs, h]
  simp [deleteText, Except.map]

theorem deleteCmd_eq (name : Str) : deleteCmd name = .ok (deleteCmdOf name) := by
  simp only [deleteCmd, deleteArgs, templateParse_DeleteCmd, renderArgs_delete]
  rfl

theorem DeleteNode_eq (env : Env) (hist : List Event) (name : Str) :
    DeleteNode env hist name =
      (hist ++ [logf "Deleting node (" name, Event.run (deleteCmdOf name)],
        if (env.proc (hist ++ [logf "Deleting node (" name]) (deleteCmdOf name)).ok then none
        else some (.process (deleteCmdOf name))) := by
  simp only [DeleteNode, templateParse_DeleteCmd, renderArgs_delete]
  rw [show execCommand "sudo".toList (stringsSplit ' ' (deleteText name)) = deleteCmdOf name
    from rfl]
  split <;> simp [List.append_assoc]

/-- The events of the first `k` calls: one delete invocation per ordinal, in ascending order, and nothing else. -/
theorem deleteHist_issued (env : Env) (nodeType : Str) (node : config.Node) (hist : List Event)
    (k : Nat) :
    ∃ new, deleteHist env nodeType node hist k = hist ++ new ∧
      issuedCmds new =
        (List.range' 1 k).map (fun j => deleteCmdOf (nodeName node.Cluster.Name nodeType j)) ∧
      ranCmds new = issuedCmds new := by
  induction k with
  | zero => exact ⟨[logf "Deleting nodes of type (" nodeType], rfl, rfl, rfl⟩
  | succ k ih =>
    obtain ⟨new, h1, h2, h3⟩ := ih
    refine ⟨new ++ [logf "Deleting node (" (nodeName node.Cluster.Name nodeType (k + 1)),
      Event.run (deleteCmdOf (nodeName node.Cluster.Name nodeType (k + 1)))], ?_, ?_, ?_⟩
    · simp only [deleteHist, DeleteNode_eq, h1, List.append_assoc]
    · rw [issuedCmds_append, h2, List.range'_1_concat, List.map_append]
      simp [Nat.add_comm]
    · rw [issuedCmds_append, ranCmds_append, h3]
      simp

/-- While the calls succeed the loop moves on to the next ordinal. -/
theorem deleteLoop_ok_steps (env : Env) (nodeType : Str) (node : config.Node)
    (hist : List Event) (m s : Nat) (rest : List Nat)
    (hok : ∀ k, s ≤ k → k < s + m → deleteOutcome env nodeType node hist k = none) :
    deleteLoop env nodeType node (List.range' (s + 1) m ++ rest)
        (deleteHist env nodeType node hist s) =
      deleteLoop env nodeType node rest (deleteHist env nodeType node hist (s + m)) := by
  induction m generalizing s with
  | zero => simp
  | succ m ih =>
    have h0 := hok s (Nat.le_refl s) (by omega)
    have hd : DeleteNode env (deleteHist env nodeType node hist s)
        (nodeName node.Cluster.Name nodeType (s + 1)) =
        (deleteHist env nodeType node hist (s + 1), none) := Prod.ext rfl h0
    rw [List.range'_succ, List.cons_append]
    simp only [deleteLoop, hd]
    rw [ih (s + 1) (fun k h1 h2 => hok k (by omega) (by omega))]
    congr 2
    omega

/-- C3: `DeleteNodes` calls `DeleteNode` for the names of the ordinals 1, 2, ... in ascending order, the
names `CreateNodes` renders for the same specification, each call issuing one delete invocation and nothing
else. If the calls for all ordinals up to the count succeed, all of them are made and no error is
returned; if the call for ordinal `i + 1` is the first to fail, its error is returned and the events
of the call end with it, so no later deletion is issued. -/
theorem C3_delete_stops_at_first_failure (env : Env) (hist : List Event) (nodeType : Str)
    (node : config.Node) :
    (∀ k, ∃ new, deleteHist env nodeType node hist k = hist ++ new ∧
      (issuedCmds new).map Except.ok =
        (List.range' 1 k).map (fun j => deleteCmd (createParams nodeType node j).Name) ∧
      (issuedCmds new).map Except.ok =
        (List.range' 1 k).map (fun j => deleteCmd (nodeName node.Cluster.Name nodeType j)) ∧
      ranCmds new = issuedCmds new) ∧
    ((∀ k, k < node.Count.toNat → deleteOutcome env nodeType node hist k = none) →
      DeleteNodes env hist nodeType node =
        (deleteHist env nodeType node hist node.Count.toNat, none)) ∧
    (∀ i e, i < node.Count.toNat →
      (∀ k, k < i → deleteOutcome env nodeType node hist k = none) →
      deleteOutcome env nodeType node hist i = some e →
      DeleteNodes env hist nodeType node =
        (deleteHist env nodeType node hist (i + 1), some e)) := by
  refine ⟨?_, ?_, ?_⟩
  · intro k
    obtain ⟨new, h1, h2, h3⟩ := deleteHist_issued env nodeType node hist k
    have h4 : (issuedCmds new).map Except.ok =
        (List.range' 1 k).map (fun j => deleteCmd (nodeName node.Cluster.Name nodeType j)) := by
      rw [h2]
      simp [List.map_map, Function.comp_def, deleteCmd_eq]
    exact ⟨new, h1, h4, h4, h3⟩
  · intro hok
    have h := deleteLoop_ok_steps env nodeType node hist node.Count.toNat 0 []
      (fun k _ h2 => hok k (by omega))
    simp only [Nat.zero_add, List.append_nil] at h
    simp only [DeleteNodes, ordinals]
    exact h
  · intro i e hi hok he
    have hsplit : List.range' 1 node.Count.toNat =
        List.range' (0 + 1) i ++ (i + 1) :: List.range' (i + 2) (node.Count.toNat - i - 1) := by
      have h1 : node.Count.toNat = (node.Count.toNat - i - 1 + 1) + i := by omega
      calc List.range' 1 node.Count.toNat
          = List.range' 1 ((node.Count.toNat - i - 1 + 1) + i) := by rw [← h1]
        _ = List.range' 1 i ++ List.range' (1 + i) (node.Count.toNat - i - 1 + 1) :=
            (List.range'_append_1 1 i _).symm
        _ = _ := by
            rw [List.range'_succ]
            simp [Nat.add_comm, Nat.add_left_comm]
    have h := deleteLoop_ok_steps env nodeType node hist i 0
      ((i + 1) :: List.range' (i + 2) (node.Count.toNat - i - 1))
      (fun k _ h2 => hok k (by omega))
    simp only [DeleteNodes, ordinals]
    rw [show hist ++ [logf "Deleting nodes of type (" nodeType] =
      deleteHist env nodeType node hist 0 from rfl, hsplit, h]
    have hd : DeleteNode env (deleteHist env nodeType node hist (0 + i))
        (nodeName node.Cluster.Name nodeType (i + 1)) =
        (deleteHist env nodeType node hist (i + 1), some e) := by
      rw [Nat.zero_add]
      exact Prod.ext rfl he
    simp only [deleteLoop, hd]

/-- C3 for two nodes when the second deletion fails: the call returns the error of the second deletion. -/
theorem C3_delete_stops_at_first_failure_witness :
    DeleteNodes envSecondFails [] "w".toList twoNodes =
      (deleteHist envSecondFails "w".toList twoNodes [] (1 + 1),
        some (.process ⟨"sudo".toList,
          ["ignite".toList, "rm".toList, "c-w-2".toList, "--force".toList]⟩)) :=
  (C3_delete_stops_at_first_failure envSecondFails [] "w".toList twoNodes).2.2 1 _
    (by decide) (by decide) (by decide)

/-! ## Parsing of the field values -/

theorem digit_iff (c : Char) : ('0' ≤ c ∧ c ≤ '9') ↔ c ∈ digitChars := by
  constructor
  · rintro ⟨h1, h2⟩
    have h3 : 48 ≤ c.toNat := h1
    have h4 : c.toNat ≤ 57 := h2
    have hc : c = Char.ofNat c.toNat := (Char.ofNat_toNat c).symm
    revert hc h3 h4
    generalize c.toNat = k
    intro h3 h4 hc
    subst hc
    interval_cases k <;> decide
  · intro h
    simp only [digitChars, List.mem_cons, List.mem_singleton, List.not_mem_nil, or_false] at h
    rcases h with h | h | h | h | h | h | h | h | h | h <;> subst h <;> decide

theorem digit_toNat_le (c : Char) (h : c ∈ digitChars) : c.toNat - 48 ≤ 9 := by
  simp only [digitChars, List.mem_cons, List.mem_singleton, List.not_mem_nil, or_false] at h
  rcases h with h | h | h | h | h | h | h | h | h | h <;> subst h <;> decide

theorem valueFrom_cons (n : Nat) (c : Char) (s : Str) :
    valueFrom n (c :: s) = valueFrom (n * 10 + (c.toNat - 48)) s := rfl

theorem le_valueFrom (s : Str) (n : Nat) : n ≤ valueFrom n s := by
  induction s generalizing n with
  | nil => exact Nat.le_refl n
  | cons c cs ih =>
    rw [valueFrom_cons]
    exact Nat.le_trans (by omega) (ih _)

/-- The loop of `ParseUint` yields the denoted value exactly for digit texts below `2^64`. -/
theorem parseUintLoop_eq (s : Str) (n : Nat) (hn : n ≤ 18446744073709551615) :
    parseUintLoop s n =
      if (∀ c ∈ s, c ∈ digitChars) ∧ valueFrom n s ≤ 18446744073709551615 then
        some (valueFrom n s)
      else none := by
  induction s generalizing n with
  | nil => simp [parseUintLoop, valueFrom, hn]
  | cons c cs ih =>
    have h48 : '0'.toNat = 48 := rfl
    have hmax : (2 : Nat) ^ 64 - 1 = 18446744073709551615 := by norm_num
    have hcut : ((2 : Nat) ^ 64 - 1) / 10 + 1 = 1844674407370955162 := by norm_num
    simp only [parseUintLoop, hcut, hmax, h48, valueFrom_cons]
    by_cases hd : '0' ≤ c ∧ c ≤ '9'
    · have hmem := (digit_iff c).mp hd
      have hle := le_valueFrom cs (n * 10 + (c.toNat - 48))
      rw [if_pos hd]
      by_cases h1 : n ≥ 1844674407370955162
      · rw [if_pos h1, if_neg]
        rintro ⟨_, h2⟩
        omega
      · rw [if_neg h1]
        by_cases h2 : n * 10 + (c.toNat - 48) > 18446744073709551615
        · rw [if_pos h2, if_neg]
          rintro ⟨_, h3⟩
          omega
        · rw [if_neg h2, ih _ (by omega)]
          simp [hmem]
    · rw [if_neg hd, if_neg]
      rintro ⟨h2, _⟩
      exact hd ((digit_iff c).mpr (h2 c (List.mem_cons_self _ _)))

theorem parseUint_eq (s : Str) :
    parseUint s =
      if s ≠ [] ∧ (∀ c ∈ s, c ∈ digitChars) ∧ valueFrom 0 s ≤ 18446744073709551615 then
        some (valueFrom 0 s)
      else none := by
  unfold parseUint
  by_cases hs : s = []
  · simp [hs]
  · rw [if_neg hs, parseUintLoop_eq s 0 (by omega)]
    simp [hs]

theorem digit_ne_sign (c : Char) (h : c ∈ digitChars) : c ≠ '+' ∧ c ≠ '-' := by
  simp only [digitChars, List.mem_cons, List.mem_singleton, List.not_mem_nil, or_false] at h
  rcases h with h | h | h | h | h | h | h | h | h | h <;> subst h <;> decide

/-- What `ParseInt` does with the sign and the digits that follow it. -/
theorem parseInt_cons (c : Char) (rest : Str) :
    parseInt (c :: rest) =
      if c = '-' then
        (if rest ≠ [] ∧ (∀ d ∈ rest, d ∈ digitChars) ∧ valueFrom 0 rest ≤ 2 ^ 63 then
          some (- (valueFrom 0 rest : Int)) else none)
      else if c = '+' then
        (if rest ≠ [] ∧ (∀ d ∈ rest, d ∈ digitChars) ∧ valueFrom 0 rest < 2 ^ 63 then
          some (valueFrom 0 rest : Int) else none)
      else
        (if (∀ d ∈ c :: rest, d ∈ digitChars) ∧ valueFrom 0 (c :: rest) < 2 ^ 63 then
          some (valueFrom 0 (c :: rest) : Int) else none) := by
  have h63 : (2 : Nat) ^ 63 = 9223372036854775808 := by norm_num
  simp only [parseInt, parseUint_eq, h63]
  by_cases hm : c = '-'
  · have hp : c ≠ '+' := by rw [hm]; decide
    simp only [hm, if_true, or_true, true_and, not_true_eq_false, false_and, if_false]
    by_cases h : rest ≠ [] ∧ (∀ d ∈ rest, d ∈ digitChars) ∧
        valueFrom 0 rest ≤ 18446744073709551615
    · rw [if_pos h]
      by_cases h2 : valueFrom 0 rest ≤ 9223372036854775808
      · rw [if_pos ⟨h.1, h.2.1, h2⟩]
        simp only [gt_iff_lt, Nat.not_lt.mpr h2, if_false]
      · rw [if_neg (fun hh => h2 hh.2.2)]
        simp only [gt_iff_lt, Nat.lt_of_not_le h2, if_true]
    · rw [if_neg h, if_neg]
      rintro ⟨a, b, d⟩
      exact h ⟨a, b, by omega⟩
  · by_cases hp : c = '+'
    · simp only [hp, show ¬ ('+' = '-') by decide, if_false, if_true, true_or, false_and,
        not_false_eq_true, true_and]
      by_cases h : rest ≠ [] ∧ (∀ d ∈ rest, d ∈ digitChars) ∧
          valueFrom 0 rest ≤ 18446744073709551615
      · rw [if_pos h]
        by_cases h2 : valueFrom 0 rest < 9223372036854775808
        · rw [if_pos ⟨h.1, h.2.1, h2⟩]
          simp only [ge_iff_le, Nat.not_le.mpr h2, if_false]
        · rw [if_neg (fun hh => h2 hh.2.2)]
          simp only [ge_iff_le, Nat.le_of_not_lt h2, if_true]
      · rw [if_neg h, if_neg]
        rintro ⟨a, b, d⟩
        exact h ⟨a, b, by omega⟩
    · simp only [hm, hp, or_self, if_false, false_and, not_false_eq_true, true_and]
      by_cases h : c :: rest ≠ [] ∧ (∀ d ∈ c :: rest, d ∈ digitChars) ∧
          valueFrom 0 (c :: rest) ≤ 18446744073709551615
      · rw [if_pos h]
        by_cases h2 : valueFrom 0 (c :: rest) < 9223372036854775808
        · rw [if_pos ⟨h.2.1, h2⟩]
          simp only [ge_iff_le, Nat.not_le.mpr h2, if_false]
        · rw [if_neg (fun hh => h2 hh.2)]
          simp only [ge_iff_le, Nat.le_of_not_lt h2, if_true]
      · rw [if_neg h, if_neg]
        rintro ⟨b, d⟩
        exact h ⟨List.cons_ne_nil _ _, b, by omega⟩

/-- The model of `ParseInt` accepts exactly the valid base-10 integers. -/
theorem parseInt_iff (s : Str) (n : Int) : parseInt s = some n ↔ IsDecimalInt s n := by
  have h63 : (2 : Int) ^ 63 = 9223372036854775808 := by norm_num
  have h63n : (2 : Nat) ^ 63 = 9223372036854775808 := by norm_num
  cases s with
  | nil =>
    constructor
    · intro h
      simp [parseInt] at h
    · rintro ⟨sign, body, h1, _, h3, _⟩
      have := List.append_eq_nil.mp h1.symm
      exact absurd this.2 h3
  | cons c rest =>
    rw [parseInt_cons]
    constructor
    · intro h
      by_cases hm : c = '-'
      · rw [if_pos hm] at h
        split at h
        · rename_i hh
          simp only [Option.some.injEq] at h
          refine ⟨['-'], rest, by rw [hm]; rfl, Or.inr (Or.inr rfl), hh.1, hh.2.1, ?_, ?_, ?_⟩
          · simp [h]
          · have := hh.2.2; omega
          · omega
        · cases h
      · rw [if_neg hm] at h
        by_cases hp : c = '+'
        · rw [if_pos hp] at h
          split at h
          · rename_i hh
            simp only [Option.some.injEq] at h
            refine ⟨['+'], rest, by rw [hp]; rfl, Or.inr (Or.inl rfl), hh.1, hh.2.1, ?_, ?_, ?_⟩
            · simp [h]
            · omega
            · have := hh.2.2; omega
          · cases h
        · rw [if_neg hp] at h
          split at h
          · rename_i hh
            simp only [Option.some.injEq] at h
            refine ⟨[], c :: rest, rfl, Or.inl rfl, List.cons_ne_nil _ _, hh.1, ?_, ?_, ?_⟩
            · simp [h]
            · omega
            · have := hh.2; omega
          · cases h
    · rintro ⟨sign, body, h1, h2, h3, h4, h5, h6, h7⟩
      rcases h2 with h2 | h2 | h2
      · subst h2
        simp only [List.nil_append] at h1
        subst h1
        have hc := digit_ne_sign c (h4 c (List.mem_cons_self _ _))
        simp only [List.nil_eq, reduceCtorEq, if_false] at h5
        rw [if_neg hc.2, if_neg hc.1, if_pos ⟨h4, by omega⟩, h5]
      · subst h2
        simp only [List.singleton_append, List.cons.injEq] at h1
        obtain ⟨e1, e2⟩ := h1
        subst e1 e2
        simp only [List.cons.injEq, and_true, show ¬ ('+' = '-') by decide, if_false] at h5
        rw [if_neg (by decide), if_pos rfl, if_pos ⟨h3, h4, by omega⟩, h5]
      · subst h2
        simp only [List.singleton_append, List.cons.injEq] at h1
        obtain ⟨e1, e2⟩ := h1
        subst e1 e2
        simp only [if_true] at h5
        rw [if_pos rfl, if_pos ⟨h3, h4, by omega⟩, h5]

theorem parseInt_none_iff (s : Str) : parseInt s = none ↔ ¬ ∃ n, IsDecimalInt s n := by
  constructor
  · rintro h ⟨n, hn⟩
    rw [(parseInt_iff s n).mpr hn] at h
    cases h
  · intro h
    cases hp : parseInt s with
    | none => rfl
    | some n => exact absurd ⟨n, (parseInt_iff s n).mp hp⟩ h

theorem parseBool_iff (s : Str) (b : Bool) : parseBool s = some b ↔ IsBoolLiteral s b := by
  unfold parseBool IsBoolLiteral
  by_cases h1 : s ∈ ["1".toList, "t".toList, "T".toList, "TRUE".toList, "true".toList,
      "True".toList]
  · rw [if_pos h1]
    have h2 : s ∉ ["0".toList, "f".toList, "F".toList, "FALSE".toList, "false".toList,
        "False".toList] := by
      have h1' := h1
      simp only [List.mem_cons, List.mem_singleton, List.not_mem_nil, or_false] at h1'
      rcases h1' with h | h | h | h | h | h <;> subst h <;> decide
    constructor
    · intro h
      exact Or.inl ⟨(Option.some.inj h).symm, h1⟩
    · rintro (⟨hb, _⟩ | ⟨_, hb⟩)
      · rw [hb]
      · exact absurd hb h2
  · rw [if_neg h1]
    by_cases h2 : s ∈ ["0".toList, "f".toList, "F".toList, "FALSE".toList, "false".toList,
        "False".toList]
    · rw [if_pos h2]
      constructor
      · intro h
        exact Or.inr ⟨(Option.some.inj h).symm, h2⟩
      · rintro (⟨_, hb⟩ | ⟨hb, _⟩)
        · exact absurd hb h1
        · rw [hb]
    · rw [if_neg h2]
      constructor
      · intro h
        cases h
      · rintro (⟨_, hb⟩ | ⟨_, hb⟩)
        · exact absurd hb h1
        · exact absurd hb h2

theorem parseBool_none_iff (s : Str) : parseBool s = none ↔ ¬ ∃ b, IsBoolLiteral s b := by
  constructor
  · rintro h ⟨b, hb⟩
    rw [(parseBool_iff s b).mpr hb] at h
    cases h
  · intro h
    cases hp : parseBool s with
    | none => rfl
    | some b => exact absurd ⟨b, (parseBool_iff s b).mp hp⟩ h

/-! ## GetNode -/

/-- After `TrimSpace` there is no trailing newline left for `TrimSuffix` to remove. -/
theorem fieldText_eq_trimSpace (output : Str) : fieldText output = trimSpace output := by
  unfold fieldText trimSuffix
  rw [if_neg]
  intro h
  unfold trimSpace at h
  simp only [List.isSuffixOf, List.reverse_reverse, List.reverse_singleton] at h
  cases hd : List.dropWhile isSpace (List.dropWhile isSpace output).reverse with
  | nil => rw [hd] at h; simp [List.isPrefixOf] at h
  | cons c cs =>
    rw [hd] at h
    simp only [List.isPrefixOf, Bool.and_true, beq_iff_eq] at h
    have hc : isSpace c = false := by
      have := List.head?_dropWhile_not isSpace (List.dropWhile isSpace output).reverse
      rw [hd] at this
      simpa using this
    rw [← h] at hc
    revert hc
    decide

theorem setField_Name (node : data.Node) (t : Target) (field v : Str) :
    (setField node t field v).Name = node.Name := by
  unfold setField
  cases t <;> simp only <;> repeat' split
  all_goals rfl

/-- The field queries when every process succeeds and the output depends on the command alone. -/
theorem fieldLoop_ok (env : Env) (name : Str) (out : Cmd → Str)
    (henv : ∀ h c, env.proc h c = ⟨true, true, out c⟩) (qs : List FieldQuery)
    (hist : List Event) (node : data.Node) :
    (fieldLoop env (getArgs name) qs hist node).2 =
      .ok (qs.foldl (fun n q => populate n q (out (fieldCmd name q))) node) := by
  induction qs generalizing hist node with
  | nil => rfl
  | cons q rest ih =>
    simp only [fieldLoop, henv, ProcResult.ok, Bool.and_self, if_true, List.foldl_cons]
    exact ih _ _

theorem populate_memory (n : data.Node) (o : Str) :
    populate n memoryQuery o = { n with Spec := { n.Spec with Memory := fieldText o } } := rfl

theorem populate_diskSize (n : data.Node) (o : Str) :
    populate n diskSizeQuery o = { n with Spec := { n.Spec with DiskSize := fieldText o } } := rfl

theorem populate_cpus (n : data.Node) (o : Str) :
    populate n cpusQuery o =
      match parseInt (fieldText o) with
      | some i => { n with Spec := { n.Spec with Cpus := i } }
      | none => n := rfl

theorem populate_running (n : data.Node) (o : Str) :
    populate n runningQuery o =
      match parseBool (fieldText o) with
      | some b => { n with Status := { n.Status with Running := b } }
      | none => n := rfl

theorem populate_comm (o : FieldQuery → Str) (x y : FieldQuery) (hx : x ∈ nodeValueFilters)
    (hy : y ∈ nodeValueFilters) (z : data.Node) :
    populate (populate z x (o x)) y (o y) = populate (populate z y (o y)) x (o x) := by
  simp only [nodeValueFilters, List.mem_cons, List.mem_singleton, List.not_mem_nil,
    or_false] at hx hy
  rcases hx with h | h | h | h <;> rcases hy with h' | h' | h' | h' <;> subst h <;> subst h' <;>
    simp only [populate_memory, populate_diskSize, populate_cpus, populate_running] <;>
    (cases parseInt (fieldText (o cpusQuery)) <;> cases parseBool (fieldText (o runningQuery)) <;>
      rfl)

/-- When every process succeeds and the output depends on the command alone, `GetNode` returns the record
whose fields are the coerced outputs of their queries, in whatever order the maps are ranged over. -/
theorem GetNode_ok (env : Env) (hist : List Event) (name : Str) (out : Cmd → Str)
    (henv : ∀ h c, env.proc h c = ⟨true, true, out c⟩)
    (horder : ∀ h, (env.mapOrder h).Perm nodeValueFilters) :
    (GetNode env hist name).2 = .ok
      ⟨name,
       ⟨config.Node.zero.Cluster, 0,
        (parseInt (fieldText (out (fieldCmd name cpusQuery)))).getD 0,
        fieldText (out (fieldCmd name memoryQuery)),
        fieldText (out (fieldCmd name diskSizeQuery))⟩,
       ⟨(parseBool (fieldText (out (fieldCmd name runningQuery)))).getD false⟩⟩ := by
  simp only [GetNode, henv, ProcResult.ok, Bool.and_self, if_true]
  rw [fieldLoop_ok env name out henv]
  rw [List.Perm.foldl_eq' (horder _)
    (fun x hx y hy z => populate_comm (fun q => out (fieldCmd name q)) x y
      ((horder _).mem_iff.mp hx) ((horder _).mem_iff.mp hy) z)]
  simp only [nodeValueFilters, List.foldl_cons, List.foldl_nil, populate_memory,
    populate_diskSize, populate_cpus, populate_running]
  cases parseInt (fieldText (out (fieldCmd name cpusQuery))) <;>
    cases parseBool (fieldText (out (fieldCmd name runningQuery))) <;> rfl

/-- A record returned by the field queries carries the name it started with. -/
theorem fieldLoop_Name (env : Env) (cmdArgs : List Str) (qs : List FieldQuery)
    (hist : List Event) (node r : data.Node)
    (h : (fieldLoop env cmdArgs qs hist node).2 = .ok r) : r.Name = node.Name := by
  induction qs generalizing hist node with
  | nil =>
    simp only [fieldLoop, Except.ok.injEq] at h
    rw [← h]
  | cons q rest ih =>
    simp only [fieldLoop] at h
    split at h
    · rw [ih _ _ h]
      exact setField_Name _ _ _ _
    · cases h

theorem GetNode_Name (env : Env) (hist : List Event) (name : Str) (r : data.Node)
    (h : (GetNode env hist name).2 = .ok r) : r.Name = name := by
  simp only [GetNode] at h
  split at h
  · exact fieldLoop_Name _ _ _ _ _ _ h
  · cases h

/-- The trace of the field queries extends the history with `Output` invocations only. -/
theorem fieldLoop_events (env : Env) (cmdArgs : List Str) (qs : List FieldQuery)
    (hist : List Event) (node : data.Node) :
    ∃ new, (fieldLoop env cmdArgs qs hist node).1 = hist ++ new ∧ ranCmds new = [] := by
  induction qs generalizing hist node with
  | nil => exact ⟨[], by simp [fieldLoop], rfl⟩
  | cons q rest ih =>
    simp only [fieldLoop]
    split
    · obtain ⟨new, h1, h2⟩ := ih
        (hist ++ [Event.output (execCommand "sudo".toList (cmdArgs ++ ["-t ".toList ++ q.filter]))])
        (populate node q (env.proc hist
          (execCommand "sudo".toList (cmdArgs ++ ["-t ".toList ++ q.filter]))).stdout)
      exact ⟨Event.output (execCommand "sudo".toList (cmdArgs ++ ["-t ".toList ++ q.filter]))
        :: new, by rw [h1]; simp, by simp [h2]⟩
    · exact ⟨[Event.output (execCommand "sudo".toList (cmdArgs ++ ["-t ".toList ++ q.filter]))],
        rfl, rfl⟩

/-- Each call of `GetNode` runs exactly one presence check, for the name it was given. -/
theorem GetNode_events (env : Env) (hist : List Event) (name : Str) :
    ∃ new, (GetNode env hist name).1 = hist ++ new ∧
      ranCmds new = [execCommand "sudo".toList (getArgs name)] := by
  simp only [GetNode]
  split
  · obtain ⟨new, h1, h2⟩ := fieldLoop_events env (getArgs name)
      (env.mapOrder (hist ++ [logf "Getting node (" name] ++
        [Event.run (execCommand "sudo".toList (getArgs name))]))
      (hist ++ [logf "Getting node (" name] ++
        [Event.run (execCommand "sudo".toList (getArgs name))])
      ⟨name, config.Node.zero, data.NodeStatus.zero⟩
    exact ⟨[logf "Getting node (" name, Event.run (execCommand "sudo".toList (getArgs name))]
      ++ new, by rw [h1]; simp, by simp [h2]⟩
  · exact ⟨[logf "Getting node (" name, Event.run (execCommand "sudo".toList (getArgs name))],
      by simp, rfl⟩

/-- When every process succeeds the field queries return a record, whatever the processes print. -/
theorem fieldLoop_succeeds (env : Env) (hok : ∀ h c, (env.proc h c).ok = true)
    (cmdArgs : List Str) (qs : List FieldQuery) (hist : List Event) (node : data.Node) :
    ∃ r, (fieldLoop env cmdArgs qs hist node).2 = .ok r := by
  induction qs generalizing hist node with
  | nil => exact ⟨node, rfl⟩
  | cons q rest ih =>
    simp only [fieldLoop, hok, if_true]
    exact ih _ _

theorem GetNode_succeeds (env : Env) (hok : ∀ h c, (env.proc h c).ok = true)
    (hist : List Event) (name : Str) : ∃ r, (GetNode env hist name).2 = .ok r := by
  simp only [GetNode, hok, if_true]
  exact fieldLoop_succeeds env hok _ _ _ _

/-! ## Properties of GetNode -/

/-- C4: when the presence check of `GetNode` fails, the call returns an error and no record, and the presence
check is the only process it created: no field query is issued. -/
theorem C4_presence_check_failure_stops_get (env : Env) (hist : List Event) (name : Str)
    (hfail : (env.proc (hist ++ [logf "Getting node (" name])
      (execCommand "sudo".toList (getArgs name))).ok = false) :
    GetNode env hist name =
      (hist ++ [logf "Getting node (" name, Event.run (execCommand "sudo".toList (getArgs name))],
        .error (.process (execCommand "sudo".toList (getArgs name)))) ∧
    issuedCmds [logf "Getting node (" name, Event.run (execCommand "sudo".toList (getArgs name))] =
      [execCommand "sudo".toList (getArgs name)] := by
  refine ⟨?_, rfl⟩
  simp only [GetNode, hfail, Bool.false_eq_true, if_false, List.append_assoc,
    List.singleton_append]

/-- C4 for the name `missing-node` when no process can be run. -/
theorem C4_presence_check_failure_stops_get_witness :
    GetNode envNoStart [] "missing-node".toList =
      ([] ++ [logf "Getting node (" "missing-node".toList,
          Event.run (execCommand "sudo".toList (getArgs "missing-node".toList))],
        .error (.process (execCommand "sudo".toList (getArgs "missing-node".toList)))) ∧
    issuedCmds [logf "Getting node (" "missing-node".toList,
        Event.run (execCommand "sudo".toList (getArgs "missing-node".toList))] =
      [execCommand "sudo".toList (getArgs "missing-node".toList)] :=
  C4_presence_check_failure_stops_get envNoStart [] "missing-node".toList rfl

/-- C7: the text of a field query is its output with surrounding white space removed, after which no
trailing newline is left. A string field is set to that text; an integer field is set to `n` when the text is
a valid base-10 integer `n` and is left as it was otherwise; a boolean field is set to `b` when the text is a
valid boolean literal `b` and is left as it was otherwise. A text that does not parse never makes `GetNode`
fail: when every process succeeds `GetNode` returns a record, and when the outputs depend on the command
alone the record holds, in whatever order the fields are queried, the coerced output of each field, with zero and
false where the text does not parse. The output `true` followed by a newline gives a true boolean
field and `not-a-number` leaves an integer field at zero. -/
theorem C7_field_output_coercion (node : data.Node) (output : Str) :
    fieldText output = trimSpace output ∧
    populate node memoryQuery output =
      { node with Spec := { node.Spec with Memory := fieldText output } } ∧
    populate node diskSizeQuery output =
      { node with Spec := { node.Spec with DiskSize := fieldText output } } ∧
    (∀ n, IsDecimalInt (fieldText output) n →
      populate node cpusQuery output = { node with Spec := { node.Spec with Cpus := n } }) ∧
    ((¬ ∃ n, IsDecimalInt (fieldText output) n) → populate node cpusQuery output = node) ∧
    (∀ b, IsBoolLiteral (fieldText output) b →
      populate node runningQuery output = { node with Status := { node.Status with Running := b } }) ∧
    ((¬ ∃ b, IsBoolLiteral (fieldText output) b) → populate node runningQuery output = node) ∧
    (∀ (env : Env) (hist : List Event) (name : Str), (∀ h c, (env.proc h c).ok = true) →
      ∃ r, (GetNode env hist name).2 = .ok r) ∧
    (∀ (env : Env) (hist : List Event) (name : Str) (out : Cmd → Str),
      (∀ h c, env.proc h c = ⟨true, true, out c⟩) →
      (∀ h, (env.mapOrder h).Perm nodeValueFilters) →
      (GetNode env hist name).2 = .ok
        ⟨name,
         ⟨config.Node.zero.Cluster, 0,
          (parseInt (fieldText (out (fieldCmd name cpusQuery)))).getD 0,
          fieldText (out (fieldCmd name memoryQuery)),
          fieldText (out (fieldCmd name diskSizeQuery))⟩,
         ⟨(parseBool (fieldText (out (fieldCmd name runningQuery)))).getD false⟩⟩) ∧
    (populate (freshNode []) runningQuery "true\n".toList).Status.Running = true ∧
    (populate (freshNode []) cpusQuery "not-a-number".toList).Spec.Cpus = 0 := by
  refine ⟨fieldText_eq_trimSpace output, rfl, rfl, ?_, ?_, ?_, ?_, ?_, ?_, by decide, by decide⟩
  · intro n hn
    rw [populate_cpus, (parseInt_iff _ _).mpr hn]
  · intro hn
    rw [populate_cpus, (parseInt_none_iff _).mpr hn]
  · intro b hb
    rw [populate_running, (parseBool_iff _ _).mpr hb]
  · intro hb
    rw [populate_running, (parseBool_none_iff _).mpr hb]
  · intro env hist name hok
    exact GetNode_succeeds env hok hist name
  · intro env hist name out henv horder
    exact GetNode_ok env hist name out henv horder

/-- C7 in an environment where every process prints `not-a-number`: the record of `GetNode` keeps
zero cpus and a false running status, and its string fields hold the text. -/
theorem C7_field_output_coercion_witness :
    (GetNode envGarbage [] "n".toList).2 = .ok
      ⟨"n".toList, ⟨⟨[], [], [], []⟩, 0, 0, "not-a-number".toList, "not-a-number".toList⟩,
        ⟨false⟩⟩ :=
  (C7_field_output_coercion (freshNode []) []).2.2.2.2.2.2.2.2.1 envGarbage [] "n".toList
    (fun _ => "not-a-number".toList) (fun _ _ => rfl) (fun _ => List.Perm.refl _)

/-! ## ListNodes -/

/-- The presence checks in the events of successive calls of `GetNode` are those of the names, in order. -/
theorem getHist_events (env : Env) (names : List Str) (hist : List Event) :
    ∃ new, getHist env names hist = hist ++ new ∧
      ranCmds new = names.map (fun n => execCommand "sudo".toList (getArgs n)) := by
  induction names generalizing hist with
  | nil => exact ⟨[], by simp [getHist], rfl⟩
  | cons n rest ih =>
    obtain ⟨new1, h1, h2⟩ := GetNode_events env hist n
    obtain ⟨new2, h3, h4⟩ := ih (GetNode env hist n).1
    refine ⟨new1 ++ new2, ?_, ?_⟩
    · rw [getHist, h3, h1, List.append_assoc]
    · simp [h2, h4]

theorem getResults_Name (env : Env) (names : List Str) (hist : List Event)
    (nodes : List data.Node) (h : getResults env names hist = nodes.map Except.ok) :
    nodes.map data.Node.Name = names := by
  induction names generalizing hist nodes with
  | nil =>
    cases nodes with
    | nil => rfl
    | cons r rs => simp [getResults] at h
  | cons n rest ih =>
    cases nodes with
    | nil => simp [getResults] at h
    | cons r rs =>
      simp only [getResults, List.map_cons, List.cons.injEq] at h
      rw [List.map_cons, ih _ _ h.2, GetNode_Name env hist n r h.1]

/-- The loop of `ListNodes` when every call of `GetNode` succeeds. -/
theorem getLoop_all_ok (env : Env) (names : List Str) (hist : List Event)
    (acc nodes : List data.Node) (h : getResults env names hist = nodes.map Except.ok) :
    getLoop env names hist acc = (getHist env names hist, .ok (acc ++ nodes)) := by
  induction names generalizing hist acc nodes with
  | nil =>
    cases nodes with
    | nil => simp [getLoop, getHist]
    | cons r rs => simp [getResults] at h
  | cons n rest ih =>
    cases nodes with
    | nil => simp [getResults] at h
    | cons r rs =>
      simp only [getResults, List.map_cons, List.cons.injEq] at h
      have hg : GetNode env hist n = ((GetNode env hist n).1, .ok r) := Prod.ext rfl h.1
      rw [getLoop, hg]
      simp only
      rw [ih _ _ _ h.2, getHist]
      simp [List.append_assoc]

/-- The loop of `ListNodes` when a call of `GetNode` fails after some calls that succeeded. -/
theorem getLoop_first_error (env : Env) (names : List Str) (hist : List Event)
    (acc oks : List data.Node) (e : Error) (rest : List (Except Error data.Node))
    (h : getResults env names hist = oks.map Except.ok ++ .error e :: rest) :
    getLoop env names hist acc =
      (getHist env (names.take (oks.length + 1)) hist, .error e) := by
  induction names generalizing hist acc oks with
  | nil => simp [getResults] at h
  | cons n ns ih =>
    cases oks with
    | nil =>
      simp only [getResults, List.map_nil, List.nil_append, List.cons.injEq] at h
      have hg : GetNode env hist n = ((GetNode env hist n).1, .error e) := Prod.ext rfl h.1
      rw [getLoop, hg]
      simp [getHist]
    | cons r rs =>
      simp only [getResults, List.map_cons, List.cons_append, List.cons.injEq] at h
      have hg : GetNode env hist n = ((GetNode env hist n).1, .ok r) := Prod.ext rfl h.1
      rw [getLoop, hg]
      simp only
      rw [ih _ _ _ h.2]
      simp [getHist]

theorem ListNodes_eq (env : Env) (hist : List Event) (clusterName : Str)
    (hlist : (listResult env hist clusterName).ok = true) :
    ListNodes env hist clusterName =
      if (listResult env hist clusterName).stdout.length > 0 then
        getLoop env (listedNames (listResult env hist clusterName).stdout)
          (listHist hist clusterName) []
      else (listHist hist clusterName, .ok []) := by
  unfold listResult at hlist
  simp only [ListNodes, hlist, if_true, listResult, listedNames, listHist, List.append_assoc,
    List.singleton_append]

/-- C8: after a successful list invocation, an empty output makes `ListNodes` return an empty sequence and
no error without calling `GetNode`. Otherwise `GetNode` is called for the pieces of the white-space-trimmed
output split at newlines, in output order, each call running one presence check for its piece: when all
calls succeed the result is their records, one per piece and in that order, each bearing its piece as
name; when a call fails after some that succeeded, `ListNodes` returns that error and no record, the calls
made being those up to the failing piece. -/
theorem C8_list_calls_get_per_name (env : Env) (hist : List Event) (clusterName : Str)
    (hlist : (listResult env hist clusterName).ok = true) :
    ((listResult env hist clusterName).stdout = [] →
      ListNodes env hist clusterName = (listHist hist clusterName, .ok [])) ∧
    ((listResult env hist clusterName).stdout ≠ [] →
      (∀ nodes,
        getResults env (listedNames (listResult env hist clusterName).stdout)
          (listHist hist clusterName) = nodes.map Except.ok →
        ListNodes env hist clusterName =
          (getHist env (listedNames (listResult env hist clusterName).stdout)
            (listHist hist clusterName), .ok nodes) ∧
        nodes.map data.Node.Name = listedNames (listResult env hist clusterName).stdout) ∧
      (∀ (oks : List data.Node) (e : Error) (rest : List (Except Error data.Node)),
        getResults env (listedNames (listResult env hist clusterName).stdout)
          (listHist hist clusterName) = oks.map Except.ok ++ .error e :: rest →
        ListNodes env hist clusterName =
          (getHist env ((listedNames (listResult env hist clusterName).stdout).take (oks.length + 1))
            (listHist hist clusterName), .error e))) ∧
    (∀ names h, ∃ new, getHist env names h = h ++ new ∧
      ranCmds new = names.map (fun n => execCommand "sudo".toList (getArgs n))) := by
  refine ⟨?_, ?_, fun names h => getHist_events env names h⟩
  · intro h0
    rw [ListNodes_eq env hist clusterName hlist, h0]
    rfl
  · intro h0
    have hlen : (listResult env hist clusterName).stdout.length > 0 :=
      List.length_pos.mpr h0
    refine ⟨?_, ?_⟩
    · intro nodes hn
      rw [ListNodes_eq env hist clusterName hlist, if_pos hlen,
        getLoop_all_ok env _ _ [] nodes hn]
      exact ⟨rfl, getResults_Name env _ _ nodes hn⟩
    · intro oks e rest hn
      rw [ListNodes_eq env hist clusterName hlist, if_pos hlen,
        getLoop_first_error env _ _ [] oks e rest hn]

/-- C8 when the listing of cluster `c` prints two names and every query succeeds. -/
theorem C8_list_calls_get_per_name_witness :
    ListNodes envTwoListed [] "c".toList =
      (getHist envTwoListed ["c-w-1".toList, "c-w-2".toList] (listHist [] "c".toList),
        .ok [⟨"c-w-1".toList, ⟨⟨[], [], [], []⟩, 0, 2, "2".toList, "2".toList⟩, ⟨false⟩⟩,
             ⟨"c-w-2".toList, ⟨⟨[], [], [], []⟩, 0, 2, "2".toList, "2".toList⟩, ⟨false⟩⟩]) ∧
    [⟨"c-w-1".toList, ⟨⟨[], [], [], []⟩, 0, 2, "2".toList, "2".toList⟩, ⟨false⟩⟩,
      (⟨"c-w-2".toList, ⟨⟨[], [], [], []⟩, 0, 2, "2".toList, "2".toList⟩, ⟨false⟩⟩ :
        data.Node)].map data.Node.Name = ["c-w-1".toList, "c-w-2".toList] :=
  ((C8_list_calls_get_per_name envTwoListed [] "c".toList rfl).2.1 (by decide)).1
    [⟨"c-w-1".toList, ⟨⟨[], [], [], []⟩, 0, 2, "2".toList, "2".toList⟩, ⟨false⟩⟩,
     ⟨"c-w-2".toList, ⟨⟨[], [], [], []⟩, 0, 2, "2".toList, "2".toList⟩, ⟨false⟩⟩] rfl

/-! ## The list invocation -/

/-- C5, the code at the empty filter: the list invocation is `ignite ps --all` alone, without the name-only
field selector `-t` that the invocation carries for a non-empty filter such as `web`; its output is then
split into names all the same. -/
theorem C5_empty_filter_lacks_name_selector :
    listArgs [] = ["ignite".toList, "ps".toList, "--all".toList] ∧
    "-t".toList ∉ listArgs [] ∧
    listArgs "web".toList =
      ["ignite".toList, "ps".toList, "--all".toList, "-f".toList,
       "{{.ObjectMeta.Name}}=~web".toList, "-t".toList, "{{.ObjectMeta.Name}}".toList] ∧
    issuedCmds (ListNodes envNoStart [] []).1 =
      [⟨"sudo".toList, ["ignite".toList, "ps".toList, "--all".toList]⟩] := by
  decide

end Kubefire
